import Mathlib

/-!
# Coupled one-phase / poroelastic driver (`src/main.cc`)

Shallow embedding of `main` of `src/main.cc`: the start-up sequence, the
parameter reads, the `do ... while` time loop around the multi-domain Newton
solver, the VTK output condition and the four `catch` clauses.

* Control flow, the two solution vectors `x` / `xOld` and the order of the
  calls are translated from `src/main.cc`.
* Collaborators whose code is not in `src/` are either parameters of the
  embedding (`Env`: set-up, the parameter tree, the Newton solver) or
  modelled from the specification (`TimeLoop`, `getParam`); the latter
  carry a doc comment saying so.
* `Scalar` (a `double` in the program) is modelled by exact rationals, the
  step index (an `int`) by unbounded integers.
* The VTK writers and the grid variables do not throw in the embedding; the
  set-up, the parameter reads and the Newton solve may.
* Every call that a statement of the specification talks about leaves an
  `Event` in a chronological trace. The loop is run for a bounded number of
  passes (`fuel`); a run that has not ended within the bound has status
  `running`, so statements about all runs cover the unfinished ones too.
-/

namespace El1p

/-- The scalar type `GetPropType<OnePTypeTag, Properties::Scalar>`, in exact arithmetic. -/
abbrev Scalar := ℚ

/-! ## Thrown values and the handlers of `main` (lines 265-288) -/

/-- A thrown value, described by which of the three typed `catch` clauses of
`main` can bind it (its dynamic type is, or derives from, the clause's type). -/
structure Thrown where
  /-- Bound by `catch (Dumux::ParameterException &e)`. -/
  isParameterException : Bool
  /-- Bound by `catch (Dune::DGFException & e)`. -/
  isDGFException : Bool
  /-- Bound by `catch (Dune::Exception &e)`. -/
  isDuneException : Bool
deriving DecidableEq, Repr

/-- The handler sequence of `main` (lines 265-288): the clauses are tried in
source order, the first one that binds the value decides the return value. -/
def handlerCode (e : Thrown) : Int :=
  if e.isParameterException then 1
  else if e.isDGFException then 2
  else if e.isDuneException then 3
  else 4

/-- A `Dumux::ParameterException` (a subclass of `Dune::Exception`). -/
def parameterException : Thrown :=
  { isParameterException := true, isDGFException := false, isDuneException := true }

/-- A `Dune::DGFException` (a subclass of `Dune::Exception`). -/
def dgfException : Thrown :=
  { isParameterException := false, isDGFException := true, isDuneException := true }

/-- A `Dune::Exception` that is neither of the two above. -/
def duneException : Thrown :=
  { isParameterException := false, isDGFException := false, isDuneException := true }

/-- A thrown value of any other type. -/
def unknownException : Thrown :=
  { isParameterException := false, isDGFException := false, isDuneException := false }

/-! ## The time loop -/

/-- Modelled from the spec: the `TimeLoop<Scalar>` class (spec: TimeState and
section 4.4); its header belongs to the framework and is not under `src/`.
Fields are the spec's TimeState: current time, current step size, maximum
step size (absent until `setMaxTimeStepSize`), end time, step index; no
minimum step size is kept because `main` never sets one. `tolerance` is the
tolerance of `finished()`. -/
structure TimeLoop where
  time : Scalar
  timeStepSize : Scalar
  maxTimeStepSize : Option Scalar
  endTime : Scalar
  timeStepIndex : Int
  tolerance : Scalar
deriving DecidableEq, Repr

namespace TimeLoop

/-- Modelled from the spec: the clipping of a requested step size, "the final
step is clipped so current time + step never exceeds end time", and the step
size stays below the maximum step size once one is set. -/
def clip (tl : TimeLoop) (dt : Scalar) : Scalar :=
  match tl.maxTimeStepSize with
  | none => min dt (tl.endTime - tl.time)
  | some m => min (min dt (tl.endTime - tl.time)) m

/-- Modelled from the spec: `setTimeStepSize(dt)`, the only way the step size
is changed; the request is clipped. -/
def setTimeStepSize (tl : TimeLoop) (dt : Scalar) : TimeLoop :=
  { tl with timeStepSize := tl.clip dt }

/-- Modelled from the spec: `setMaxTimeStepSize(value)`; the current step
size is clipped against the new maximum. -/
def setMaxTimeStepSize (tl : TimeLoop) (maxDt : Scalar) : TimeLoop :=
  setTimeStepSize { tl with maxTimeStepSize := some maxDt } tl.timeStepSize

/-- Modelled from the spec: the constructor `TimeLoop(startTime, dt, tEnd)`:
step index 0, no maximum step size yet, the initial step size clipped. -/
def create (tolerance startTime dt tEnd : Scalar) : TimeLoop :=
  setTimeStepSize
    { time := startTime, timeStepSize := dt, maxTimeStepSize := none,
      endTime := tEnd, timeStepIndex := 0, tolerance := tolerance } dt

/-- Modelled from the spec: `start()`; it starts the wall-clock timer and
leaves the TimeState as it is. -/
def start (tl : TimeLoop) : TimeLoop := tl

/-- Modelled from the spec: `advanceTimeStep()`: the current step size is the
accepted step size, it is added to the current time, the step index grows by
one, and the step size for the next step is clipped again. -/
def advanceTimeStep (tl : TimeLoop) : TimeLoop :=
  setTimeStepSize
    { tl with time := tl.time + tl.timeStepSize, timeStepIndex := tl.timeStepIndex + 1 }
    tl.timeStepSize

/-- Modelled from the spec: `finished()`, "true when current time ≥ end time
minus tolerance". -/
def finished (tl : TimeLoop) : Bool :=
  decide (tl.endTime - tl.tolerance ≤ tl.time)

end TimeLoop

/-! ## Parameters -/

/-- What the parameter tree holds for one key. -/
inductive Lookup (α : Type) where
  | missing
  | malformed
  | value (a : α)
deriving DecidableEq, Repr

/-- Modelled from the spec: `getParam<T>(key)` (framework function, not under
`src/`): "Malformed or missing required parameters fail ... with a
configuration error"; the configuration error is `Dumux::ParameterException`,
the type the first handler of `main` catches. -/
def getParam {α : Type} : Lookup α → Except Thrown α
  | .value a => .ok a
  | .missing => .error parameterException
  | .malformed => .error parameterException

/-! ## The Newton solver and the environment of `main` -/

/-- What one call `newtonSolver->solve(x, *timeLoop)` does to its two
reference arguments: the content of `x` when the call ends, the step sizes it
set on the time loop in order (one `setTimeStepSize` per retry), and the
thrown value if the call ends by throwing. -/
structure SolveResult (Sol : Type) where
  x : Sol
  stepSizes : List Scalar
  thrown : Option Thrown

/-- The collaborators of `main`, as parameters. `Sol` is `SolutionVector`. -/
structure Env (Sol : Type) where
  /-- Lines 83-163: MPI, parameter tree, grid, problems, the initial solution
  `x` (lines 136-139), coupling manager, grid variables, VTK modules. Either
  a value is thrown or the initial solution is returned. -/
  setup : Except Thrown Sol
  /-- Entry `Problem.OutputInterval` of the parameter tree, read as `int`. -/
  outputInterval : Lookup Int
  /-- Entry `TimeLoop.TEnd`. -/
  tEnd : Lookup Scalar
  /-- Entry `TimeLoop.MaxTimeStepSize`. -/
  maxTimeStepSize : Lookup Scalar
  /-- Entry `TimeLoop.Dt`. -/
  dt : Lookup Scalar
  /-- The call `newtonSolver->solve(x, *timeLoop)`. Its result depends on `x`,
  on the previous solution `xOld` (the assembler and the coupling manager hold
  the address of `xOld`, lines 189 and 201, and read the previous solution
  through it) and on the time loop. It writes to its two reference arguments
  only, see `SolveResult`. -/
  solve : Sol → Sol → TimeLoop → SolveResult Sol
  /-- Tolerance of `TimeLoop::finished()`. -/
  tolerance : Scalar

/-! ## Events, states, runs -/

/-- The two sub-domains (each has a grid-variables object and a VTK writer). -/
inductive Domain where
  | oneP
  | poroMech
deriving DecidableEq, Repr

/-- The two places where `main` calls `timeLoop->finished()`. -/
inductive Site where
  /-- Line 220, third disjunct of the output condition. -/
  | outputCondition
  /-- Line 249, the `while` condition. -/
  | loopCondition
deriving DecidableEq, Repr

/-- The observable calls of `main`. -/
inductive Event (Sol : Type) where
  /-- `onePVtkWriter.write(time)` / `poroMechVtkWriter.write(time)`; the
  writers hold a reference to `x`, whose content is recorded. -/
  | write (d : Domain) (time : Scalar) (x : Sol)
  /-- Line 209 is entered with these `x`, `xOld` and time loop. -/
  | solveCall (x xOld : Sol) (tl : TimeLoop)
  /-- Line 209 ended by throwing. -/
  | solveThrow (e : Thrown)
  /-- Line 209 returned; `x`, `xOld` and the time loop after the call. -/
  | solveReturn (x xOld : Sol) (tl : TimeLoop)
  /-- Line 212, `xOld = x`. -/
  | assignOld (x : Sol)
  /-- Line 215, `timeLoop->advanceTimeStep()`: the step size that was
  accepted and the time loop after the call. -/
  | advanceTimeStep (dt : Scalar) (tl : TimeLoop)
  /-- Lines 216-217, `advanceTimeStep()` of a grid-variables object. -/
  | gridAdvance (d : Domain)
  /-- A call of `timeLoop->finished()` and its result. -/
  | finished (site : Site) (b : Bool)
deriving DecidableEq, Repr

/-- The variables of `main` the loop works on. -/
structure State (Sol : Type) where
  x : Sol
  xOld : Sol
  timeLoop : TimeLoop

/-- How far a run got. -/
inductive Status where
  /-- The loop would go on (the step budget of the embedding is used up). -/
  | running
  /-- `main` reached `return 0` (line 262). -/
  | completed
  /-- A value was thrown inside the function-try-block. -/
  | thrown (e : Thrown)
  /-- Line 220 evaluated `timeStepIndex() % vtkOutputInterval` with a zero
  divisor (undefined behaviour). -/
  | divisionByZero
deriving DecidableEq, Repr

/-- The output condition of line 220 with its short-circuit evaluation:
`timeStepIndex()==0 || timeStepIndex() % vtkOutputInterval == 0 || finished()`.
`none` is the division by zero; otherwise the value of the condition and the
`finished()` call it made, if any. -/
def outputCondition {Sol : Type} (vtkOutputInterval : Int) (tl : TimeLoop) :
    Option (Bool × List (Event Sol)) :=
  if tl.timeStepIndex = 0 then some (true, [])
  else if vtkOutputInterval = 0 then none
  else if tl.timeStepIndex.tmod vtkOutputInterval = 0 then some (true, [])
  else some (tl.finished, [Event.finished Site.outputCondition tl.finished])

/-- One pass through the body of the `do ... while` (lines 205-249),
including the evaluation of the `while` condition. Status `running` means
the condition `!timeLoop->finished()` held, `completed` that it did not. -/
def loopBody {Sol : Type} (env : Env Sol) (vtkOutputInterval : Int) (s : State Sol) :
    Status × State Sol × List (Event Sol) :=
  let r := env.solve s.x s.xOld s.timeLoop
  let tlS := r.stepSizes.foldl TimeLoop.setTimeStepSize s.timeLoop
  match r.thrown with
  | some e =>
    (Status.thrown e, { x := r.x, xOld := s.xOld, timeLoop := tlS },
      [Event.solveCall s.x s.xOld s.timeLoop, Event.solveThrow e])
  | none =>
    let tlA := tlS.advanceTimeStep
    let s1 : State Sol := { x := r.x, xOld := r.x, timeLoop := tlA }
    let pre : List (Event Sol) :=
      [Event.solveCall s.x s.xOld s.timeLoop, Event.solveReturn r.x s.xOld tlS,
       Event.assignOld r.x, Event.advanceTimeStep tlS.timeStepSize tlA,
       Event.gridAdvance Domain.oneP, Event.gridAdvance Domain.poroMech]
    match outputCondition vtkOutputInterval tlA with
    | none => (Status.divisionByZero, s1, pre)
    | some (due, evs) =>
      let writes : List (Event Sol) :=
        if due then [Event.write Domain.oneP tlA.time r.x, Event.write Domain.poroMech tlA.time r.x]
        else []
      (if tlA.finished then Status.completed else Status.running, s1,
        pre ++ evs ++ writes ++ [Event.finished Site.loopCondition tlA.finished])

/-- Result of running the loop. -/
structure LoopRun (Sol : Type) where
  status : Status
  state : State Sol
  trace : List (Event Sol)

/-- The `do ... while` loop of lines 204-249, for at most `fuel` passes. -/
def timeLoopRun {Sol : Type} (env : Env Sol) (vtkOutputInterval : Int) :
    Nat → State Sol → LoopRun Sol
  | 0, s => { status := Status.running, state := s, trace := [] }
  | fuel + 1, s =>
    match loopBody env vtkOutputInterval s with
    | (Status.running, s1, evs) =>
      let r := timeLoopRun env vtkOutputInterval fuel s1
      { status := r.status, state := r.state, trace := evs ++ r.trace }
    | (st, s1, evs) => { status := st, state := s1, trace := evs }

/-- Result of running `main`. -/
structure Run (Sol : Type) where
  status : Status
  /-- The solution `x`, once it exists. -/
  x : Option Sol
  /-- The old solution `xOld`, once it exists. -/
  xOld : Option Sol
  /-- The time loop, once it exists. -/
  timeLoop : Option TimeLoop
  trace : List (Event Sol)

/-- The body of `main` (lines 76-262) for at most `fuel` passes of the loop. -/
def run {Sol : Type} (env : Env Sol) (fuel : Nat) : Run Sol :=
  match env.setup with
  | .error e => { status := Status.thrown e, x := none, xOld := none, timeLoop := none, trace := [] }
  | .ok x0 =>
    -- line 140: SolutionVector xOld = x; lines 166-167: write initial solution
    let initial : List (Event Sol) := [Event.write Domain.oneP 0 x0, Event.write Domain.poroMech 0 x0]
    let stop (e : Thrown) : Run Sol :=
      { status := Status.thrown e, x := some x0, xOld := some x0, timeLoop := none, trace := initial }
    match getParam env.outputInterval with
    | .error e => stop e
    | .ok vtkOutputInterval =>
    match getParam env.tEnd with
    | .error e => stop e
    | .ok tEnd =>
    match getParam env.maxTimeStepSize with
    | .error e => stop e
    | .ok maxDT =>
    match getParam env.dt with
    | .error e => stop e
    | .ok dt =>
      let timeLoop := (TimeLoop.create env.tolerance 0 dt tEnd).setMaxTimeStepSize maxDT
      let r := timeLoopRun env vtkOutputInterval fuel
        { x := x0, xOld := x0, timeLoop := timeLoop.start }
      { status := r.status, x := some r.state.x, xOld := some r.state.xOld,
        timeLoop := some r.state.timeLoop, trace := initial ++ r.trace }

/-- The value returned by `main`: 0 at line 262, otherwise the handler's
value; none while the loop is running and after the division by zero. -/
def exitCode : Status → Option Int
  | Status.completed => some 0
  | Status.thrown e => some (handlerCode e)
  | Status.running => none
  | Status.divisionByZero => none

/-- The function `main` of `src/main.cc`. -/
def main {Sol : Type} (env : Env Sol) (fuel : Nat) : Option Int :=
  exitCode (run env fuel).status

/-! ## A small concrete environment -/

/-- An environment whose solution is a counter and whose solver adds one to it
and never throws; all parameters are present. -/
def demoEnv (vtkOutputInterval : Int) (tEnd maxDT dt : Scalar) : Env Nat :=
  { setup := .ok 0
    outputInterval := .value vtkOutputInterval
    tEnd := .value tEnd
    maxTimeStepSize := .value maxDT
    dt := .value dt
    solve := fun x _ _ => { x := x + 1, stepSizes := [], thrown := none }
    tolerance := 0 }

/-! ## Names for the parts of one pass of the loop and of a trace -/

namespace TimeLoop

/-- The TimeState invariant for a configured maximum step size and end time. -/
def Bounded (maxDT tEnd : Scalar) (tl : TimeLoop) : Prop :=
  tl.maxTimeStepSize = some maxDT ∧ tl.endTime = tEnd ∧
    tl.timeStepSize ≤ maxDT ∧ tl.time + tl.timeStepSize ≤ tEnd

end TimeLoop

section

variable {Sol : Type}

/-- The time loop when `solve` ends: the solver's step sizes have been set. -/
def afterSolve (env : Env Sol) (s : State Sol) : TimeLoop :=
  (env.solve s.x s.xOld s.timeLoop).stepSizes.foldl TimeLoop.setTimeStepSize s.timeLoop

/-- The time loop after line 215. -/
def advanced (env : Env Sol) (s : State Sol) : TimeLoop :=
  (afterSolve env s).advanceTimeStep

/-- The state after lines 209-217 of a pass whose solve returned. -/
def accepted (env : Env Sol) (s : State Sol) : State Sol :=
  { x := (env.solve s.x s.xOld s.timeLoop).x, xOld := (env.solve s.x s.xOld s.timeLoop).x,
    timeLoop := advanced env s }

/-- The events of lines 209-217 of a pass whose solve returned. -/
def stepEvents (env : Env Sol) (s : State Sol) : List (Event Sol) :=
  [Event.solveCall s.x s.xOld s.timeLoop,
   Event.solveReturn (env.solve s.x s.xOld s.timeLoop).x s.xOld (afterSolve env s),
   Event.assignOld (env.solve s.x s.xOld s.timeLoop).x,
   Event.advanceTimeStep (afterSolve env s).timeStepSize (advanced env s),
   Event.gridAdvance Domain.oneP, Event.gridAdvance Domain.poroMech]

/-- The events of lines 220-249 of a pass, given the outcome of the output condition. -/
def outputEvents (env : Env Sol) (s : State Sol) (due : Bool) (evs : List (Event Sol)) :
    List (Event Sol) :=
  evs ++ (if due then
      [Event.write Domain.oneP (advanced env s).time (env.solve s.x s.xOld s.timeLoop).x,
       Event.write Domain.poroMech (advanced env s).time (env.solve s.x s.xOld s.timeLoop).x]
    else []) ++ [Event.finished Site.loopCondition (advanced env s).finished]

end

section

variable {Sol : Type}

/-- A parameter entry that `getParam` cannot return a value for: the key is
missing or its value cannot be parsed. -/
def Lookup.unusable {α : Type} : Lookup α → Bool
  | .value _ => false
  | .missing => true
  | .malformed => true

/-- The environment passes start-up: lines 83-163 return the initial solution
`x0` and the four parameter reads of lines 170-176 return these values. -/
def Started (env : Env Sol) (x0 : Sol) (vtkOutputInterval : Int) (tEnd maxDT dt : Scalar) : Prop :=
  env.setup = .ok x0 ∧ env.outputInterval = .value vtkOutputInterval ∧
    env.tEnd = .value tEnd ∧ env.maxTimeStepSize = .value maxDT ∧ env.dt = .value dt

/-- The time loop at line 204: `TimeLoop(0.0, dt, tEnd)`, then
`setMaxTimeStepSize(maxDT)`, then `start()`. -/
abbrev initialTimeLoop (env : Env Sol) (tEnd maxDT dt : Scalar) : TimeLoop :=
  ((TimeLoop.create env.tolerance 0 dt tEnd).setMaxTimeStepSize maxDT).start

/-- The state in which the loop is entered. -/
abbrev initialState (env : Env Sol) (x0 : Sol) (tEnd maxDT dt : Scalar) : State Sol :=
  { x := x0, xOld := x0, timeLoop := initialTimeLoop env tEnd maxDT dt }

/-- The two writes of lines 166-167. -/
abbrev initialWrites (x0 : Sol) : List (Event Sol) :=
  [Event.write Domain.oneP 0 x0, Event.write Domain.poroMech 0 x0]

end

/-- An environment whose set-up (lines 83-163) throws `e`. -/
def failingSetupEnv (e : Thrown) : Env Nat :=
  { setup := .error e
    outputInterval := .value 1
    tEnd := .value 1
    maxTimeStepSize := .value 1
    dt := .value 1
    solve := fun x _ _ => { x := x, stepSizes := [], thrown := none }
    tolerance := 0 }

section

variable {Sol : Type}

/-- The solution accepted last in a trace: the `x` with which the last
`solve` of the trace returned, and `a` if no `solve` returned in it. -/
def lastAccepted : Sol → List (Event Sol) → Sol
  | a, [] => a
  | _, Event.solveReturn x _ _ :: es => lastAccepted x es
  | a, _ :: es => lastAccepted a es

/-- Along the trace, every `solve` is entered and left with `xOld` equal to
the solution accepted last before it (`a` at the start of the trace). -/
def OldIsAccepted : Sol → List (Event Sol) → Prop
  | _, [] => True
  | a, Event.solveCall _ xOld _ :: es => xOld = a ∧ OldIsAccepted a es
  | a, Event.solveReturn x xOld _ :: es => xOld = a ∧ OldIsAccepted x es
  | a, _ :: es => OldIsAccepted a es

end

/-- An environment whose solver accepts the first step and throws a
`Dune::Exception` in the second, after touching `x` and the step size. -/
def failingSolveEnv : Env Nat :=
  { setup := .ok 0
    outputInterval := .value 1
    tEnd := .value 3
    maxTimeStepSize := .value 1
    dt := .value 1
    solve := fun x _ _ =>
      if x = 0 then { x := 1, stepSizes := [], thrown := none }
      else { x := x + 7, stepSizes := [1 / 2], thrown := some duneException }
    tolerance := 0 }

section

variable {Sol : Type}

/-- The step sizes of the accepted steps of a trace, in order: one for every
call of `timeLoop->advanceTimeStep()`. -/
def acceptedStepSizes : List (Event Sol) → List Scalar
  | [] => []
  | Event.advanceTimeStep dt _ :: es => dt :: acceptedStepSizes es
  | _ :: es => acceptedStepSizes es

end

section

variable {Sol : Type}

/-- The snapshots written in a trace, in order: writer, time, solution. -/
def snapshots : List (Event Sol) → List (Domain × Scalar × Sol)
  | [] => []
  | Event.write d t x :: es => (d, t, x) :: snapshots es
  | _ :: es => snapshots es

/-- The accepted steps of a trace, in order: for every call of
`timeLoop->advanceTimeStep()` the time loop after the call and the solution
with which the preceding `solve` returned (`cur` if there is none). -/
def acceptedSteps : Sol → List (Event Sol) → List (TimeLoop × Sol)
  | _, [] => []
  | _, Event.solveReturn x _ _ :: es => acceptedSteps x es
  | cur, Event.advanceTimeStep _ tl :: es => (tl, cur) :: acceptedSteps cur es
  | cur, _ :: es => acceptedSteps cur es

/-- The snapshots the output rule asks for: after the step with number `k`
(counted on from the first step of the list) both writers are called with
the time and the solution of that step exactly when `k % vtkOutputInterval ==
0` or the time loop is finished after the step. -/
def expectedSnapshots (vtkOutputInterval : Int) :
    Int → List (TimeLoop × Sol) → List (Domain × Scalar × Sol)
  | _, [] => []
  | k, (tl, x) :: rest =>
    (if k.tmod vtkOutputInterval = 0 ∨ tl.finished = true then
      [(Domain.oneP, tl.time, x), (Domain.poroMech, tl.time, x)] else []) ++
    expectedSnapshots vtkOutputInterval (k + 1) rest

end

section

variable {Sol : Type}

/-- The state in which pass number `k + 1` of the loop is entered when the
loop is entered in `s` and the Newton solves of the first `k` passes return:
each pass leaves the state of lines 209-217. -/
def passState (env : Env Sol) : Nat → State Sol → State Sol
  | 0, s => s
  | k + 1, s => passState env k (accepted env s)

/-- The arguments of the calls of the Newton solve in a trace, in order:
`x`, `xOld` and the time loop at the call. -/
def solveCalls : List (Event Sol) → List (Sol × Sol × TimeLoop)
  | [] => []
  | Event.solveCall x xOld tl :: es => (x, xOld, tl) :: solveCalls es
  | _ :: es => solveCalls es

/-- The results of the `finished()` calls of the loop condition (line 249)
in a trace, in order. -/
def loopConditions : List (Event Sol) → List Bool
  | [] => []
  | Event.finished Site.loopCondition b :: es => b :: loopConditions es
  | _ :: es => loopConditions es

/-- The arguments with which the Newton solve is called in the first `n`
passes of the loop entered in `s`. -/
def passCalls (env : Env Sol) : Nat → State Sol → List (Sol × Sol × TimeLoop)
  | 0, _ => []
  | k + 1, s => (s.x, s.xOld, s.timeLoop) :: passCalls env k (accepted env s)

end

/-! ## Facts about the time loop -/

namespace TimeLoop

@[simp]
theorem setTimeStepSize_time (tl : TimeLoop) (dt : Scalar) :
    (tl.setTimeStepSize dt).time = tl.time := rfl

@[simp]
theorem setTimeStepSize_endTime (tl : TimeLoop) (dt : Scalar) :
    (tl.setTimeStepSize dt).endTime = tl.endTime := rfl

@[simp]
theorem setTimeStepSize_timeStepIndex (tl : TimeLoop) (dt : Scalar) :
    (tl.setTimeStepSize dt).timeStepIndex = tl.timeStepIndex := rfl

@[simp]
theorem setTimeStepSize_maxTimeStepSize (tl : TimeLoop) (dt : Scalar) :
    (tl.setTimeStepSize dt).maxTimeStepSize = tl.maxTimeStepSize := rfl

@[simp]
theorem setTimeStepSize_tolerance (tl : TimeLoop) (dt : Scalar) :
    (tl.setTimeStepSize dt).tolerance = tl.tolerance := rfl

@[simp]
theorem setTimeStepSize_timeStepSize (tl : TimeLoop) (dt : Scalar) :
    (tl.setTimeStepSize dt).timeStepSize = tl.clip dt := rfl

@[simp]
theorem setTimeStepSize_finished (tl : TimeLoop) (dt : Scalar) :
    (tl.setTimeStepSize dt).finished = tl.finished := rfl

theorem clip_le_remaining (tl : TimeLoop) (dt : Scalar) :
    tl.clip dt ≤ tl.endTime - tl.time := by
  unfold clip
  cases tl.maxTimeStepSize with
  | none => exact min_le_right _ _
  | some m => exact le_trans (min_le_left _ _) (min_le_right _ _)

theorem clip_le_max (tl : TimeLoop) (dt m : Scalar) (h : tl.maxTimeStepSize = some m) :
    tl.clip dt ≤ m := by
  unfold clip
  rw [h]
  exact min_le_right _ _

@[simp]
theorem foldl_time (l : List Scalar) (tl : TimeLoop) :
    (l.foldl setTimeStepSize tl).time = tl.time := by
  induction l generalizing tl with
  | nil => rfl
  | cons a l ih => simp [List.foldl_cons, ih]

@[simp]
theorem foldl_endTime (l : List Scalar) (tl : TimeLoop) :
    (l.foldl setTimeStepSize tl).endTime = tl.endTime := by
  induction l generalizing tl with
  | nil => rfl
  | cons a l ih => simp [List.foldl_cons, ih]

@[simp]
theorem foldl_timeStepIndex (l : List Scalar) (tl : TimeLoop) :
    (l.foldl setTimeStepSize tl).timeStepIndex = tl.timeStepIndex := by
  induction l generalizing tl with
  | nil => rfl
  | cons a l ih => simp [List.foldl_cons, ih]

@[simp]
theorem foldl_maxTimeStepSize (l : List Scalar) (tl : TimeLoop) :
    (l.foldl setTimeStepSize tl).maxTimeStepSize = tl.maxTimeStepSize := by
  induction l generalizing tl with
  | nil => rfl
  | cons a l ih => simp [List.foldl_cons, ih]

@[simp]
theorem foldl_tolerance (l : List Scalar) (tl : TimeLoop) :
    (l.foldl setTimeStepSize tl).tolerance = tl.tolerance := by
  induction l generalizing tl with
  | nil => rfl
  | cons a l ih => simp [List.foldl_cons, ih]

@[simp]
theorem advanceTimeStep_time (tl : TimeLoop) :
    tl.advanceTimeStep.time = tl.time + tl.timeStepSize := rfl

@[simp]
theorem advanceTimeStep_endTime (tl : TimeLoop) :
    tl.advanceTimeStep.endTime = tl.endTime := rfl

@[simp]
theorem advanceTimeStep_timeStepIndex (tl : TimeLoop) :
    tl.advanceTimeStep.timeStepIndex = tl.timeStepIndex + 1 := rfl

@[simp]
theorem advanceTimeStep_maxTimeStepSize (tl : TimeLoop) :
    tl.advanceTimeStep.maxTimeStepSize = tl.maxTimeStepSize := rfl

theorem Bounded.setTimeStepSize {maxDT tEnd : Scalar} {tl : TimeLoop}
    (h : tl.maxTimeStepSize = some maxDT) (h2 : tl.endTime = tEnd) (dt : Scalar) :
    Bounded maxDT tEnd (tl.setTimeStepSize dt) := by
  refine ⟨h, h2, clip_le_max tl dt maxDT h, ?_⟩
  have := clip_le_remaining tl dt
  simp only [setTimeStepSize_time, setTimeStepSize_timeStepSize]
  rw [h2] at this
  linarith

theorem Bounded.foldl {maxDT tEnd : Scalar} (l : List Scalar) {tl : TimeLoop}
    (h : Bounded maxDT tEnd tl) : Bounded maxDT tEnd (l.foldl TimeLoop.setTimeStepSize tl) := by
  induction l generalizing tl with
  | nil => exact h
  | cons a l ih => exact ih (Bounded.setTimeStepSize h.1 h.2.1 a)

theorem Bounded.advanceTimeStep {maxDT tEnd : Scalar} {tl : TimeLoop}
    (h : Bounded maxDT tEnd tl) : Bounded maxDT tEnd tl.advanceTimeStep := by
  unfold TimeLoop.advanceTimeStep
  apply Bounded.setTimeStepSize
  · exact h.1
  · exact h.2.1

theorem Bounded.create (tolerance dt tEnd maxDT : Scalar) :
    Bounded maxDT tEnd ((create tolerance 0 dt tEnd).setMaxTimeStepSize maxDT).start := by
  unfold TimeLoop.start TimeLoop.setMaxTimeStepSize
  apply Bounded.setTimeStepSize
  · rfl
  · rfl

end TimeLoop


/-! ## Unfolding one pass of the loop -/

section LoopShape

variable {Sol : Type}

@[simp]
theorem accepted_x (env : Env Sol) (s : State Sol) :
    (accepted env s).x = (env.solve s.x s.xOld s.timeLoop).x := rfl

@[simp]
theorem accepted_xOld (env : Env Sol) (s : State Sol) :
    (accepted env s).xOld = (env.solve s.x s.xOld s.timeLoop).x := rfl

@[simp]
theorem accepted_timeLoop (env : Env Sol) (s : State Sol) :
    (accepted env s).timeLoop = advanced env s := rfl

@[simp]
theorem afterSolve_time (env : Env Sol) (s : State Sol) :
    (afterSolve env s).time = s.timeLoop.time := by
  simp [afterSolve]

@[simp]
theorem afterSolve_timeStepIndex (env : Env Sol) (s : State Sol) :
    (afterSolve env s).timeStepIndex = s.timeLoop.timeStepIndex := by
  simp [afterSolve]

@[simp]
theorem advanced_time (env : Env Sol) (s : State Sol) :
    (advanced env s).time = s.timeLoop.time + (afterSolve env s).timeStepSize := by
  simp [advanced]

@[simp]
theorem advanced_timeStepIndex (env : Env Sol) (s : State Sol) :
    (advanced env s).timeStepIndex = s.timeLoop.timeStepIndex + 1 := by
  simp [advanced]

theorem outputCondition_eq_none {v : Int} {tl : TimeLoop}
    (h : @outputCondition Sol v tl = none) : tl.timeStepIndex ≠ 0 ∧ v = 0 := by
  unfold outputCondition at h
  split_ifs at h with h1 h2 h3
  exact ⟨h1, h2⟩

theorem outputCondition_eq_some {v : Int} {tl : TimeLoop} {due : Bool} {evs : List (Event Sol)}
    (h : outputCondition v tl = some (due, evs)) :
    (tl.timeStepIndex = 0 ∨ v ≠ 0) ∧
    ((due = true ∧ evs = [] ∧ (tl.timeStepIndex = 0 ∨ tl.timeStepIndex.tmod v = 0)) ∨
     (due = tl.finished ∧ evs = [Event.finished Site.outputCondition tl.finished] ∧
        tl.timeStepIndex ≠ 0 ∧ tl.timeStepIndex.tmod v ≠ 0)) := by
  unfold outputCondition at h
  split_ifs at h with h1 h2 h3
  · simp only [Option.some.injEq, Prod.mk.injEq] at h
    exact ⟨Or.inl h1, Or.inl ⟨h.1.symm, h.2.symm, Or.inl h1⟩⟩
  · simp only [Option.some.injEq, Prod.mk.injEq] at h
    exact ⟨Or.inr h2, Or.inl ⟨h.1.symm, h.2.symm, Or.inr h3⟩⟩
  · simp only [Option.some.injEq, Prod.mk.injEq] at h
    exact ⟨Or.inr h2, Or.inr ⟨h.1.symm, h.2.symm, h1, h3⟩⟩

/-- Case analysis of one more pass of the loop: the solve throws; the output
condition divides by zero; the loop ends; the loop goes on. -/
theorem timeLoopRun_succ_cases (P : LoopRun Sol → Prop)
    (env : Env Sol) (v : Int) (n : Nat) (s : State Sol)
    (hthrow : ∀ e, (env.solve s.x s.xOld s.timeLoop).thrown = some e →
      P { status := Status.thrown e,
          state := { x := (env.solve s.x s.xOld s.timeLoop).x, xOld := s.xOld,
                     timeLoop := afterSolve env s },
          trace := [Event.solveCall s.x s.xOld s.timeLoop, Event.solveThrow e] })
    (hdiv : (env.solve s.x s.xOld s.timeLoop).thrown = none →
      @outputCondition Sol v (advanced env s) = none →
      P { status := Status.divisionByZero, state := accepted env s, trace := stepEvents env s })
    (hdone : (env.solve s.x s.xOld s.timeLoop).thrown = none →
      ∀ due evs, outputCondition v (advanced env s) = some (due, evs) →
      (advanced env s).finished = true →
      P { status := Status.completed, state := accepted env s,
          trace := stepEvents env s ++ outputEvents env s due evs })
    (hcont : (env.solve s.x s.xOld s.timeLoop).thrown = none →
      ∀ due evs, outputCondition v (advanced env s) = some (due, evs) →
      (advanced env s).finished = false →
      P { status := (timeLoopRun env v n (accepted env s)).status,
          state := (timeLoopRun env v n (accepted env s)).state,
          trace := stepEvents env s ++ outputEvents env s due evs ++
            (timeLoopRun env v n (accepted env s)).trace }) :
    P (timeLoopRun env v (n + 1) s) := by
  cases hr : (env.solve s.x s.xOld s.timeLoop).thrown with
  | some e =>
    have heq : timeLoopRun env v (n + 1) s =
        { status := Status.thrown e,
          state := { x := (env.solve s.x s.xOld s.timeLoop).x, xOld := s.xOld,
                     timeLoop := afterSolve env s },
          trace := [Event.solveCall s.x s.xOld s.timeLoop, Event.solveThrow e] } := by
      simp only [timeLoopRun, loopBody, hr]
      rfl
    rw [heq]
    exact hthrow e hr
  | none =>
    cases ho : @outputCondition Sol v (advanced env s) with
    | none =>
      have ho1 : @outputCondition Sol v
          ((env.solve s.x s.xOld s.timeLoop).stepSizes.foldl TimeLoop.setTimeStepSize
            s.timeLoop).advanceTimeStep = none := ho
      have heq : timeLoopRun env v (n + 1) s =
          { status := Status.divisionByZero, state := accepted env s,
            trace := stepEvents env s } := by
        simp only [timeLoopRun, loopBody, hr, ho1]
        rfl
      rw [heq]
      exact hdiv hr ho
    | some p =>
      obtain ⟨due, evs⟩ := p
      have ho1 : @outputCondition Sol v
          ((env.solve s.x s.xOld s.timeLoop).stepSizes.foldl TimeLoop.setTimeStepSize
            s.timeLoop).advanceTimeStep = some (due, evs) := ho
      cases hf : (advanced env s).finished with
      | true =>
        have hf1 : ((env.solve s.x s.xOld s.timeLoop).stepSizes.foldl TimeLoop.setTimeStepSize
            s.timeLoop).advanceTimeStep.finished = true := hf
        have heq : timeLoopRun env v (n + 1) s =
            { status := Status.completed, state := accepted env s,
              trace := stepEvents env s ++ outputEvents env s due evs } := by
          simp only [timeLoopRun, loopBody, hr, ho1, hf1, if_true]
          simp [accepted, advanced, afterSolve, stepEvents, outputEvents, hf1]
        rw [heq]
        exact hdone hr due evs ho hf
      | false =>
        have hf1 : ((env.solve s.x s.xOld s.timeLoop).stepSizes.foldl TimeLoop.setTimeStepSize
            s.timeLoop).advanceTimeStep.finished = false := hf
        have heq : timeLoopRun env v (n + 1) s =
            { status := (timeLoopRun env v n (accepted env s)).status,
              state := (timeLoopRun env v n (accepted env s)).state,
              trace := stepEvents env s ++ outputEvents env s due evs ++
                (timeLoopRun env v n (accepted env s)).trace } := by
          simp only [timeLoopRun, loopBody, hr, ho1, hf1, Bool.false_eq_true, if_false]
          simp [accepted, advanced, afterSolve, stepEvents, outputEvents, hf1]
        rw [heq]
        exact hcont hr due evs ho hf

end LoopShape

/-! ## The run of `main` after a successful start-up -/

section RunShape

variable {Sol : Type}

theorem run_of_started {env : Env Sol} {x0 : Sol} {v : Int} {tEnd maxDT dt : Scalar}
    (h : Started env x0 v tEnd maxDT dt) (fuel : Nat) :
    run env fuel =
      { status := (timeLoopRun env v fuel (initialState env x0 tEnd maxDT dt)).status,
        x := some (timeLoopRun env v fuel (initialState env x0 tEnd maxDT dt)).state.x,
        xOld := some (timeLoopRun env v fuel (initialState env x0 tEnd maxDT dt)).state.xOld,
        timeLoop := some (timeLoopRun env v fuel (initialState env x0 tEnd maxDT dt)).state.timeLoop,
        trace := initialWrites x0 ++
          (timeLoopRun env v fuel (initialState env x0 tEnd maxDT dt)).trace } := by
  obtain ⟨h0, h1, h2, h3, h4⟩ := h
  simp [run, getParam, h0, h1, h2, h3, h4]

end RunShape

/-! ## Shared facts about traces -/

section TraceFacts

variable {Sol : Type}

theorem append_split_of_not_mem {α : Type} {l1 l2 pre post : List α} {a : α}
    (h : l1 ++ l2 = pre ++ a :: post) (ha : a ∉ l1) :
    ∃ q, pre = l1 ++ q ∧ l2 = q ++ a :: post := by
  induction l1 generalizing pre with
  | nil => exact ⟨pre, rfl, h⟩
  | cons b l1 ih =>
    cases pre with
    | nil =>
      simp only [List.cons_append, List.nil_append, List.cons.injEq] at h
      exact absurd (h.1 ▸ List.mem_cons_self _ _) ha
    | cons c pre =>
      simp only [List.cons_append, List.cons.injEq] at h
      obtain ⟨q, hq1, hq2⟩ := ih h.2 (fun hm => ha (List.mem_cons_of_mem _ hm))
      exact ⟨q, by rw [h.1, hq1, List.cons_append], hq2⟩

/-- The events lines 220-249 can leave: the two `finished()` calls and the two writes. -/
theorem mem_outputEvents {env : Env Sol} {s : State Sol} {v : Int} {due : Bool}
    {evs : List (Event Sol)} (ho : outputCondition v (advanced env s) = some (due, evs))
    {ev : Event Sol} (hev : ev ∈ outputEvents env s due evs) :
    (∃ site b, ev = Event.finished site b) ∨ (∃ d t x, ev = Event.write d t x) := by
  obtain ⟨_, ⟨hd, he, _⟩ | ⟨hd, he, _⟩⟩ := outputCondition_eq_some ho
  · subst hd he
    simp only [outputEvents, List.nil_append, if_true, List.cons_append, List.mem_cons,
      List.mem_singleton, List.not_mem_nil, or_false] at hev
    rcases hev with h | h | h
    · exact Or.inr ⟨_, _, _, h⟩
    · exact Or.inr ⟨_, _, _, h⟩
    · exact Or.inl ⟨_, _, h⟩
  · subst he
    simp only [outputEvents, List.append_assoc, List.mem_append, List.mem_singleton] at hev
    rcases hev with h | h | h
    · exact Or.inl ⟨_, _, h⟩
    · split_ifs at h
      · simp only [List.mem_cons, List.mem_singleton, List.not_mem_nil, or_false] at h
        rcases h with h | h
        · exact Or.inr ⟨_, _, _, h⟩
        · exact Or.inr ⟨_, _, _, h⟩
      · simp at h
    · exact Or.inl ⟨_, _, h⟩

/-- Every pass of the loop begins with a call of the Newton solve. -/
theorem timeLoopRun_succ_head (env : Env Sol) (v : Int) (n : Nat) (s : State Sol) :
    ∃ rest, (timeLoopRun env v (n + 1) s).trace = Event.solveCall s.x s.xOld s.timeLoop :: rest := by
  apply timeLoopRun_succ_cases
    (fun r => ∃ rest, r.trace = Event.solveCall s.x s.xOld s.timeLoop :: rest)
  · intro e _; exact ⟨_, rfl⟩
  · intro _ _; exact ⟨_, rfl⟩
  · intro _ due evs _ _; exact ⟨_, rfl⟩
  · intro _ due evs _ _; exact ⟨_, rfl⟩

/-- A pass whose solve returns begins with the events of lines 209-217. -/
theorem timeLoopRun_succ_steps (env : Env Sol) (v : Int) (n : Nat) (s : State Sol)
    (hr : (env.solve s.x s.xOld s.timeLoop).thrown = none) :
    ∃ rest, (timeLoopRun env v (n + 1) s).trace = stepEvents env s ++ rest := by
  apply timeLoopRun_succ_cases (fun r => ∃ rest, r.trace = stepEvents env s ++ rest)
  · intro e he
    rw [hr] at he
    cases he
  · intro _ _; exact ⟨[], (List.append_nil _).symm⟩
  · intro _ due evs _ _; exact ⟨_, rfl⟩
  · intro _ due evs _ _; exact ⟨_, List.append_assoc _ _ _⟩

end TraceFacts

/-! ## The step budget -/

section Budget

variable {Sol : Type}

theorem timeLoopRun_succ_eq (env : Env Sol) (v : Int) (n : Nat) (s : State Sol) :
    timeLoopRun env v (n + 1) s =
      match loopBody env v s with
      | (Status.running, s1, evs) =>
        { status := (timeLoopRun env v n s1).status, state := (timeLoopRun env v n s1).state,
          trace := evs ++ (timeLoopRun env v n s1).trace }
      | (st, s1, evs) => { status := st, state := s1, trace := evs } := rfl

/-- Once the loop has ended within the budget, a larger budget changes nothing. -/
theorem timeLoopRun_stable (env : Env Sol) (v : Int) (n : Nat) (s : State Sol)
    (h : (timeLoopRun env v n s).status ≠ Status.running) :
    timeLoopRun env v (n + 1) s = timeLoopRun env v n s := by
  induction n generalizing s with
  | zero => exact absurd rfl h
  | succ n ih =>
    rcases hb : loopBody env v s with ⟨st, s1, evs⟩
    cases st with
    | running =>
      rw [timeLoopRun_succ_eq env v n s, hb] at h
      rw [timeLoopRun_succ_eq env v (n + 1) s, timeLoopRun_succ_eq env v n s, hb]
      simp only
      rw [ih s1 h]
    | completed =>
      rw [timeLoopRun_succ_eq env v (n + 1) s, timeLoopRun_succ_eq env v n s, hb]
    | thrown e =>
      rw [timeLoopRun_succ_eq env v (n + 1) s, timeLoopRun_succ_eq env v n s, hb]
    | divisionByZero =>
      rw [timeLoopRun_succ_eq env v (n + 1) s, timeLoopRun_succ_eq env v n s, hb]

/-- Once `main` has ended within the budget, a larger budget changes nothing. -/
theorem run_stable (env : Env Sol) (n m : Nat)
    (h : (run env n).status ≠ Status.running) : run env (n + m) = run env n := by
  induction m with
  | zero => rfl
  | succ m ih =>
    rw [← ih]
    have h1 : (run env (n + m)).status ≠ Status.running := by rw [ih]; exact h
    cases h0 : env.setup with
    | error e0 => simp [run, h0]
    | ok x0 =>
      cases h1a : env.outputInterval <;> cases h2 : env.tEnd <;>
        cases h3 : env.maxTimeStepSize <;> cases h4 : env.dt <;>
        first
        | (simp [run, getParam, h0, h1a, h2, h3, h4]; done)
        | (rename_i v tEnd maxDT dt
           have hs : Started env x0 v tEnd maxDT dt := ⟨h0, h1a, h2, h3, h4⟩
           rw [run_of_started hs] at h1
           rw [run_of_started hs, run_of_started hs, ← Nat.add_assoc,
             timeLoopRun_stable env v (n + m) _ h1])

end Budget

/-! ## Exit codes -/

/-- C1: the outcome-to-exit-code mapping of `main`. Normal completion returns
0; a thrown value returns the value of the first handler that binds it, in the
order `Dumux::ParameterException` (1), `Dune::DGFException` (2),
`Dune::Exception` (3), anything else (4). The four error codes are nonzero
and pairwise distinct, and a value the first or second handler binds is never
reported with 3, although the third handler could bind it too. -/
theorem main_exit_code_mapping {Sol : Type} (env : Env Sol) (fuel : Nat) :
    ((run env fuel).status = Status.completed → main env fuel = some 0) ∧
    (∀ e : Thrown, (run env fuel).status = Status.thrown e →
      (e.isParameterException = true → main env fuel = some 1) ∧
      (e.isParameterException = false → e.isDGFException = true → main env fuel = some 2) ∧
      (e.isParameterException = false → e.isDGFException = false →
        e.isDuneException = true → main env fuel = some 3) ∧
      (e.isParameterException = false → e.isDGFException = false →
        e.isDuneException = false → main env fuel = some 4) ∧
      main env fuel ≠ some 0 ∧
      (e.isParameterException = true ∨ e.isDGFException = true → main env fuel ≠ some 3)) ∧
    [0, handlerCode parameterException, handlerCode dgfException,
      handlerCode duneException, handlerCode unknownException] = [0, 1, 2, 3, 4] ∧
    [0, handlerCode parameterException, handlerCode dgfException,
      handlerCode duneException, handlerCode unknownException].Nodup := by
  refine ⟨fun h => by simp [main, h, exitCode], fun e h => ?_, by decide, by decide⟩
  obtain ⟨p, d, u⟩ := e
  simp only [main, h, exitCode, handlerCode]
  cases p <;> cases d <;> cases u <;> simp

/-- C1, at concrete runs: a run that completes returns 0, a set-up that throws
a DGF exception returns 2. -/
theorem main_exit_code_mapping_witness :
    main (demoEnv 2 3 1 1) 10 = some 0 ∧ main (failingSetupEnv dgfException) 0 = some 2 :=
  ⟨(main_exit_code_mapping (demoEnv 2 3 1 1) 10).1 (by decide!),
   ((main_exit_code_mapping (failingSetupEnv dgfException) 0).2.1 dgfException
      (by decide!)).2.1 rfl rfl⟩

/-! ## Parameter reads -/

/-- C3: when the set-up has returned the initial solution and one of the four
required parameters is missing or cannot be parsed, `main` returns 1 (the
configuration error), and this happens before the time loop exists: the only
events are the two initial writes, no Newton solve is called, and both `x`
and `xOld` are still the initial solution. Whatever the set-up does, an
unusable parameter means that no Newton solve is called. -/
theorem unusable_parameter_fails_before_loop {Sol : Type} (env : Env Sol) (fuel : Nat)
    (h : env.outputInterval.unusable = true ∨ env.tEnd.unusable = true ∨
      env.maxTimeStepSize.unusable = true ∨ env.dt.unusable = true) :
    (∀ x xOld tl, Event.solveCall x xOld tl ∉ (run env fuel).trace) ∧
    (run env fuel).timeLoop = none ∧
    (∀ x0, env.setup = .ok x0 →
      main env fuel = some 1 ∧
      (run env fuel).status = Status.thrown parameterException ∧
      (run env fuel).trace = initialWrites x0 ∧
      (run env fuel).x = some x0 ∧ (run env fuel).xOld = some x0) := by
  cases h0 : env.setup with
  | error e => simp [run, h0]
  | ok x0 =>
    cases h1 : env.outputInterval <;> cases h2 : env.tEnd <;>
      cases h3 : env.maxTimeStepSize <;> cases h4 : env.dt <;>
      simp_all [run, main, getParam, exitCode, handlerCode, parameterException, Lookup.unusable]

/-- C3, at a concrete configuration: `TimeLoop.TEnd` is missing. -/
theorem unusable_parameter_fails_before_loop_witness :
    main { demoEnv 1 1 1 1 with tEnd := Lookup.missing } 10 = some 1 :=
  ((unusable_parameter_fails_before_loop { demoEnv 1 1 1 1 with tEnd := Lookup.missing } 10
    (Or.inr (Or.inl rfl))).2.2 0 rfl).1

/-! ## A zero output interval -/

/-- C7 (what the code does): for every configuration that passes start-up
with `Problem.OutputInterval` parsed to 0 and whose first Newton solve
returns, `main` does not fail with the configuration error: it enters the
loop, runs the solve, advances the time loop and then evaluates
`timeStepIndex() % vtkOutputInterval` with the divisor 0 at line 220. -/
theorem zero_output_interval_divides_by_zero {Sol : Type} (env : Env Sol) (fuel : Nat)
    (x0 : Sol) (tEnd maxDT dt : Scalar) (h : Started env x0 0 tEnd maxDT dt)
    (hsolve : (env.solve x0 x0 (initialTimeLoop env tEnd maxDT dt)).thrown = none) :
    (run env (fuel + 1)).status = Status.divisionByZero ∧
    main env (fuel + 1) ≠ some 1 ∧
    (run env (fuel + 1)).trace =
      initialWrites x0 ++ stepEvents env (initialState env x0 tEnd maxDT dt) := by
  have hidx : (advanced env (initialState env x0 tEnd maxDT dt)).timeStepIndex = 1 := by
    rw [advanced_timeStepIndex]
    rfl
  have hcond : @outputCondition Sol 0
      (advanced env (initialState env x0 tEnd maxDT dt)) = none := by
    unfold outputCondition
    rw [hidx]
    simp
  have hloop : timeLoopRun env 0 (fuel + 1) (initialState env x0 tEnd maxDT dt) =
      { status := Status.divisionByZero, state := accepted env (initialState env x0 tEnd maxDT dt),
        trace := stepEvents env (initialState env x0 tEnd maxDT dt) } := by
    apply timeLoopRun_succ_cases (fun r => r = _)
    · intro e he
      rw [hsolve] at he
      cases he
    · intro _ _
      rfl
    · intro _ due evs ho
      rw [hcond] at ho
      cases ho
    · intro _ due evs ho
      rw [hcond] at ho
      cases ho
  simp only [main, run_of_started h, hloop, exitCode]
  simp

/-- C7, at a concrete configuration: output interval 0, end time 3, step size 1. -/
theorem zero_output_interval_divides_by_zero_witness :
    (run (demoEnv 0 3 1 1) 5).status = Status.divisionByZero ∧
    main (demoEnv 0 3 1 1) 5 ≠ some 1 ∧
    (run (demoEnv 0 3 1 1) 5).trace =
      initialWrites 0 ++ stepEvents (demoEnv 0 3 1 1) (initialState (demoEnv 0 3 1 1) 0 3 1 1) :=
  zero_output_interval_divides_by_zero (demoEnv 0 3 1 1) 4 0 3 1 1
    ⟨rfl, rfl, rfl, rfl, rfl⟩ rfl

/-! ## The old solution -/

section OldSolution

variable {Sol : Type}

theorem lastAccepted_append (a : Sol) (l1 l2 : List (Event Sol)) :
    lastAccepted a (l1 ++ l2) = lastAccepted (lastAccepted a l1) l2 := by
  induction l1 generalizing a with
  | nil => rfl
  | cons e l1 ih => cases e <;> simp [lastAccepted, ih]

theorem OldIsAccepted.of_solveCall {a : Sol} {tr pre post : List (Event Sol)}
    {x xOld : Sol} {tl : TimeLoop} (h : OldIsAccepted a tr)
    (htr : tr = pre ++ Event.solveCall x xOld tl :: post) : xOld = lastAccepted a pre := by
  induction pre generalizing a tr with
  | nil =>
    subst htr
    simpa [OldIsAccepted, lastAccepted] using h.1
  | cons e pre ih =>
    subst htr
    cases e <;> simp only [List.cons_append, OldIsAccepted, lastAccepted] at h ⊢ <;>
      first
      | exact ih h rfl
      | exact ih h.2 rfl

theorem OldIsAccepted.of_solveReturn {a : Sol} {tr pre post : List (Event Sol)}
    {x xOld : Sol} {tl : TimeLoop} (h : OldIsAccepted a tr)
    (htr : tr = pre ++ Event.solveReturn x xOld tl :: post) : xOld = lastAccepted a pre := by
  induction pre generalizing a tr with
  | nil =>
    subst htr
    simpa [OldIsAccepted, lastAccepted] using h.1
  | cons e pre ih =>
    subst htr
    cases e <;> simp only [List.cons_append, OldIsAccepted, lastAccepted] at h ⊢ <;>
      first
      | exact ih h rfl
      | exact ih h.2 rfl

theorem OldIsAccepted.cons_write {a : Sol} {d : Domain} {t : Scalar} {x : Sol}
    {tr : List (Event Sol)} (h : OldIsAccepted a tr) :
    OldIsAccepted a (Event.write d t x :: tr) := by
  simpa [OldIsAccepted] using h

theorem timeLoopRun_oldIsAccepted (env : Env Sol) (v : Int) (n : Nat) (s : State Sol) :
    OldIsAccepted s.xOld (timeLoopRun env v n s).trace ∧
    (timeLoopRun env v n s).state.xOld = lastAccepted s.xOld (timeLoopRun env v n s).trace := by
  induction n generalizing s with
  | zero => simp [timeLoopRun, OldIsAccepted, lastAccepted]
  | succ n ih =>
    apply timeLoopRun_succ_cases
      (fun r => OldIsAccepted s.xOld r.trace ∧ r.state.xOld = lastAccepted s.xOld r.trace)
    · intro e _
      simp [OldIsAccepted, lastAccepted]
    · intro _ _
      simp [stepEvents, OldIsAccepted, lastAccepted]
    · intro _ due evs ho _
      obtain ⟨_, ⟨hd, he, _⟩ | ⟨hd, he, _⟩⟩ := outputCondition_eq_some ho
      · subst hd he
        simp [stepEvents, outputEvents, OldIsAccepted, lastAccepted]
      · subst he
        cases due <;> simp [stepEvents, outputEvents, OldIsAccepted, lastAccepted]
    · intro _ due evs ho _
      have ih1 := ih (accepted env s)
      obtain ⟨_, ⟨hd, he, _⟩ | ⟨hd, he, _⟩⟩ := outputCondition_eq_some ho
      · subst hd he
        simpa [stepEvents, outputEvents, OldIsAccepted, lastAccepted] using ih1
      · subst he
        cases due <;> simpa [stepEvents, outputEvents, OldIsAccepted, lastAccepted] using ih1

end OldSolution

/-- C2: in every run of `main` whose set-up returned the initial solution `x0`,
`xOld` is replaced only by a solution with which a Newton solve returned:
at every call of `solve`, `xOld` is the solution accepted last before the
call (`x0` at the first call); when a `solve` returns, `xOld` is still that
solution, whatever happened to `x`; and at the end of the run, also when the
last solve threw, `xOld` is the solution accepted last in the run. -/
theorem old_solution_is_last_accepted {Sol : Type} (env : Env Sol) (fuel : Nat) (x0 : Sol)
    (h0 : env.setup = .ok x0) :
    (∀ pre post x xOld tl, (run env fuel).trace = pre ++ Event.solveCall x xOld tl :: post →
      xOld = lastAccepted x0 pre) ∧
    (∀ pre post x xOld tl, (run env fuel).trace = pre ++ Event.solveReturn x xOld tl :: post →
      xOld = lastAccepted x0 pre) ∧
    (run env fuel).xOld = some (lastAccepted x0 (run env fuel).trace) := by
  have key : OldIsAccepted x0 (run env fuel).trace ∧
      (run env fuel).xOld = some (lastAccepted x0 (run env fuel).trace) := by
    cases h1 : env.outputInterval <;> cases h2 : env.tEnd <;>
      cases h3 : env.maxTimeStepSize <;> cases h4 : env.dt <;>
      first
      | (simp [run, getParam, h0, h1, h2, h3, h4, OldIsAccepted, lastAccepted]; done)
      | (rename_i v tEnd maxDT dt
         have hs : Started env x0 v tEnd maxDT dt := ⟨h0, h1, h2, h3, h4⟩
         have hl := timeLoopRun_oldIsAccepted env v fuel (initialState env x0 tEnd maxDT dt)
         rw [run_of_started hs]
         refine ⟨OldIsAccepted.cons_write (OldIsAccepted.cons_write hl.1), ?_⟩
         simp only [lastAccepted_append, lastAccepted]
         exact congrArg some hl.2)
  exact ⟨fun pre post x xOld tl htr => key.1.of_solveCall htr,
    fun pre post x xOld tl htr => key.1.of_solveReturn htr, key.2⟩

/-- C2, at a concrete run: the first solve is accepted with solution 1, the
second solve changes `x` to 8 and throws; `xOld` is still 1. -/
theorem old_solution_is_last_accepted_witness :
    (run failingSolveEnv 10).xOld = some (lastAccepted 0 (run failingSolveEnv 10).trace) ∧
    (run failingSolveEnv 10).xOld = some 1 ∧ (run failingSolveEnv 10).x = some 8 :=
  ⟨(old_solution_is_last_accepted failingSolveEnv 10 0 rfl).2.2, by decide!, by decide!⟩

/-! ## A Newton solve that throws -/

section FatalSolve

variable {Sol : Type}

theorem solveThrow_not_mem_pass {env : Env Sol} {s : State Sol} {v : Int} {due : Bool}
    {evs : List (Event Sol)} (ho : outputCondition v (advanced env s) = some (due, evs))
    (e : Thrown) : Event.solveThrow e ∉ stepEvents env s ++ outputEvents env s due evs := by
  intro hm
  rcases List.mem_append.1 hm with h | h
  · simp [stepEvents] at h
  · rcases mem_outputEvents ho h with ⟨_, _, h⟩ | ⟨_, _, _, h⟩ <;> cases h

theorem timeLoopRun_solveThrow (env : Env Sol) (v : Int) (n : Nat) (s : State Sol)
    (pre post : List (Event Sol)) (e : Thrown)
    (htr : (timeLoopRun env v n s).trace = pre ++ Event.solveThrow e :: post) :
    post = [] ∧ (timeLoopRun env v n s).status = Status.thrown e ∧
    ∃ pre1 x xOld tl, pre = pre1 ++ [Event.solveCall x xOld tl] ∧
      (timeLoopRun env v n s).state.xOld = xOld ∧
      (timeLoopRun env v n s).state.timeLoop.time = tl.time ∧
      (timeLoopRun env v n s).state.timeLoop.timeStepIndex = tl.timeStepIndex := by
  induction n generalizing s pre with
  | zero => simp [timeLoopRun] at htr
  | succ n ih =>
    revert htr
    apply timeLoopRun_succ_cases
      (fun r => r.trace = pre ++ Event.solveThrow e :: post →
        post = [] ∧ r.status = Status.thrown e ∧
        ∃ pre1 x xOld tl, pre = pre1 ++ [Event.solveCall x xOld tl] ∧
          r.state.xOld = xOld ∧ r.state.timeLoop.time = tl.time ∧
          r.state.timeLoop.timeStepIndex = tl.timeStepIndex)
    · intro e1 _ htr
      have h1 : [Event.solveCall s.x s.xOld s.timeLoop] ++ [Event.solveThrow e1] =
          pre ++ Event.solveThrow e :: post := htr
      obtain ⟨q, hq1, hq2⟩ := append_split_of_not_mem h1 (by simp)
      cases q with
      | nil =>
        simp only [List.nil_append, List.cons.injEq, Event.solveThrow.injEq] at hq2
        refine ⟨hq2.2.symm, by rw [hq2.1], [], s.x, s.xOld, s.timeLoop, by simpa using hq1,
          rfl, ?_, ?_⟩ <;> simp
      | cons c q =>
        simp only [List.cons_append, List.cons.injEq] at hq2
        have := hq2.2
        simp at this
    · intro _ _ htr
      have hm : Event.solveThrow e ∈ stepEvents env s := by
        have : Event.solveThrow e ∈ pre ++ Event.solveThrow e :: post := by simp
        rw [← htr] at this
        exact this
      simp [stepEvents] at hm
    · intro _ due evs ho _ htr
      have hm : Event.solveThrow e ∈ stepEvents env s ++ outputEvents env s due evs := by
        have : Event.solveThrow e ∈ pre ++ Event.solveThrow e :: post := by simp
        rw [← htr] at this
        exact this
      exact absurd hm (solveThrow_not_mem_pass ho e)
    · intro _ due evs ho _ htr
      obtain ⟨q, hq1, hq2⟩ := append_split_of_not_mem htr (solveThrow_not_mem_pass ho e)
      obtain ⟨hp, hst, pre1, x, xOld, tl, hpre, hx⟩ := ih (accepted env s) q hq2
      exact ⟨hp, hst, (stepEvents env s ++ outputEvents env s due evs) ++ pre1, x, xOld, tl,
        by rw [hq1, hpre]; simp only [List.append_assoc], hx⟩

theorem handlerCode_ne_zero (e : Thrown) : handlerCode e ≠ 0 := by
  obtain ⟨p, d, u⟩ := e
  cases p <;> cases d <;> cases u <;> simp [handlerCode]

end FatalSolve

/-- C6: if a Newton solve throws `e` in some step of a run of `main`, then the
`solveThrow` event is the last event of the run (no statement of that step
after the solve runs and no later step is executed), the event before it is
the call of that solve, the run ends with the very value `e` at the handlers,
so `main` returns the nonzero code of `e`, `xOld` is what it was when the
solve was called, and the time loop has the time and the step index it had
when the solve was called. -/
theorem fatal_solve_ends_run {Sol : Type} (env : Env Sol) (fuel : Nat)
    (pre post : List (Event Sol)) (e : Thrown)
    (htr : (run env fuel).trace = pre ++ Event.solveThrow e :: post) :
    post = [] ∧ (run env fuel).status = Status.thrown e ∧
    main env fuel = some (handlerCode e) ∧ main env fuel ≠ some 0 ∧
    ∃ pre1 x xOld tl, pre = pre1 ++ [Event.solveCall x xOld tl] ∧
      (run env fuel).xOld = some xOld ∧
      ∃ tlF, (run env fuel).timeLoop = some tlF ∧ tlF.time = tl.time ∧
        tlF.timeStepIndex = tl.timeStepIndex := by
  have hmem : Event.solveThrow e ∈ (run env fuel).trace := by rw [htr]; simp
  cases h0 : env.setup with
  | error e0 => simp [run, h0] at hmem
  | ok x0 =>
    cases h1 : env.outputInterval <;> cases h2 : env.tEnd <;>
      cases h3 : env.maxTimeStepSize <;> cases h4 : env.dt <;>
      first
      | (simp [run, getParam, h0, h1, h2, h3, h4] at hmem; done)
      | (rename_i v tEnd maxDT dt
         have hs : Started env x0 v tEnd maxDT dt := ⟨h0, h1, h2, h3, h4⟩
         rw [run_of_started hs] at htr
         obtain ⟨q, hq1, hq2⟩ := append_split_of_not_mem htr (by simp)
         obtain ⟨hp, hst, pre1, x, xOld, tl, hpre, hx, ht, hi⟩ :=
           timeLoopRun_solveThrow env v fuel _ q post e hq2
         have hstatus : (run env fuel).status = Status.thrown e := by
           rw [run_of_started hs]; exact hst
         refine ⟨hp, hstatus, by simp [main, hstatus, exitCode], ?_,
           initialWrites x0 ++ pre1, x, xOld, tl, by rw [hq1, hpre]; simp only [List.append_assoc], ?_, ?_⟩
         · simp only [main, hstatus, exitCode, ne_eq, Option.some.injEq]
           exact handlerCode_ne_zero e
         · rw [run_of_started hs]; exact congrArg some hx
         · rw [run_of_started hs]; exact ⟨_, rfl, ht, hi⟩)

/-- C6, at a concrete run: the second solve throws a `Dune::Exception`; `main`
returns 3 and the throw is the last event. -/
theorem fatal_solve_ends_run_witness :
    main failingSolveEnv 10 = some (handlerCode duneException) ∧
    (run failingSolveEnv 10).status = Status.thrown duneException :=
  have h := fatal_solve_ends_run failingSolveEnv 10
    ((run failingSolveEnv 10).trace.take 12) [] duneException (by decide!)
  ⟨h.2.2.1, h.2.1⟩

/-! ## The step size at every solve -/

section StepBounds

variable {Sol : Type}

theorem timeLoopRun_bounded (env : Env Sol) (v : Int) (maxDT tEnd : Scalar) (n : Nat)
    (s : State Sol) (hs : TimeLoop.Bounded maxDT tEnd s.timeLoop) :
    ∀ x xOld tl, (Event.solveCall x xOld tl ∈ (timeLoopRun env v n s).trace ∨
        Event.solveReturn x xOld tl ∈ (timeLoopRun env v n s).trace) →
      TimeLoop.Bounded maxDT tEnd tl := by
  induction n generalizing s with
  | zero => simp [timeLoopRun]
  | succ n ih =>
    have hS : TimeLoop.Bounded maxDT tEnd (afterSolve env s) := TimeLoop.Bounded.foldl _ hs
    have hA : TimeLoop.Bounded maxDT tEnd (advanced env s) := hS.advanceTimeStep
    have hstep : ∀ x xOld tl, (Event.solveCall x xOld tl ∈ stepEvents env s ∨
        Event.solveReturn x xOld tl ∈ stepEvents env s) → TimeLoop.Bounded maxDT tEnd tl := by
      intro x xOld tl h
      simp only [stepEvents, List.mem_cons, Event.solveCall.injEq, List.mem_singleton,
        Event.solveReturn.injEq, reduceCtorEq, or_false, false_or, List.not_mem_nil] at h
      rcases h with h | h
      · rw [h.2.2]; exact hs
      · rw [h.2.2]; exact hS
    have hout : ∀ due evs, outputCondition v (advanced env s) = some (due, evs) →
        ∀ x xOld tl, ¬ (Event.solveCall x xOld tl ∈ outputEvents env s due evs ∨
        Event.solveReturn x xOld tl ∈ outputEvents env s due evs) := by
      intro due evs ho x xOld tl h
      rcases h with h | h <;>
        rcases mem_outputEvents ho h with ⟨_, _, h1⟩ | ⟨_, _, _, h1⟩ <;> cases h1
    apply timeLoopRun_succ_cases
      (fun r => ∀ x xOld tl, (Event.solveCall x xOld tl ∈ r.trace ∨
        Event.solveReturn x xOld tl ∈ r.trace) → TimeLoop.Bounded maxDT tEnd tl)
    · intro e _ x xOld tl h
      simp only [List.mem_cons, Event.solveCall.injEq, List.mem_singleton, reduceCtorEq,
        or_false, List.not_mem_nil] at h
      rw [h.2.2]; exact hs
    · intro _ _ x xOld tl h
      exact hstep x xOld tl h
    · intro _ due evs ho _ x xOld tl h
      rcases h with h | h
      · rcases List.mem_append.1 h with h | h
        · exact hstep x xOld tl (Or.inl h)
        · exact absurd (Or.inl h) (hout due evs ho x xOld tl)
      · rcases List.mem_append.1 h with h | h
        · exact hstep x xOld tl (Or.inr h)
        · exact absurd (Or.inr h) (hout due evs ho x xOld tl)
    · intro _ due evs ho _ x xOld tl h
      rcases h with h | h
      · rcases List.mem_append.1 h with h | h
        · rcases List.mem_append.1 h with h | h
          · exact hstep x xOld tl (Or.inl h)
          · exact absurd (Or.inl h) (hout due evs ho x xOld tl)
        · exact ih (accepted env s) hA x xOld tl (Or.inl h)
      · rcases List.mem_append.1 h with h | h
        · rcases List.mem_append.1 h with h | h
          · exact hstep x xOld tl (Or.inr h)
          · exact absurd (Or.inr h) (hout due evs ho x xOld tl)
        · exact ih (accepted env s) hA x xOld tl (Or.inr h)

end StepBounds

/-- C8: for every `TimeLoop.Dt`, `TimeLoop.MaxTimeStepSize` and `TimeLoop.TEnd`
with which `main` passes start-up, the time loop built by `TimeLoop(0.0, dt,
tEnd)` and `setMaxTimeStepSize(maxDT)` is at time 0 with a step size that is
at most `maxDT` and does not lead beyond `tEnd`; the first Newton solve is
called with exactly this time loop; and at every call of the Newton solve, as
well as when it returns, the step size is at most `maxDT` and current time +
step size is at most `tEnd`. -/
theorem step_size_bounded_at_every_solve {Sol : Type} (env : Env Sol) (fuel : Nat) (x0 : Sol)
    (v : Int) (tEnd maxDT dt : Scalar) (h : Started env x0 v tEnd maxDT dt) :
    (initialTimeLoop env tEnd maxDT dt).time = 0 ∧
    (initialTimeLoop env tEnd maxDT dt).timeStepSize ≤ maxDT ∧
    0 + (initialTimeLoop env tEnd maxDT dt).timeStepSize ≤ tEnd ∧
    (run env (fuel + 1)).trace.get? 2 =
      some (Event.solveCall x0 x0 (initialTimeLoop env tEnd maxDT dt)) ∧
    (∀ x xOld tl, (Event.solveCall x xOld tl ∈ (run env fuel).trace ∨
        Event.solveReturn x xOld tl ∈ (run env fuel).trace) →
      tl.timeStepSize ≤ maxDT ∧ tl.time + tl.timeStepSize ≤ tEnd) := by
  have hb : TimeLoop.Bounded maxDT tEnd (initialTimeLoop env tEnd maxDT dt) :=
    TimeLoop.Bounded.create env.tolerance dt tEnd maxDT
  have ht : (initialTimeLoop env tEnd maxDT dt).time = 0 := rfl
  refine ⟨ht, hb.2.2.1, ?_, ?_, ?_⟩
  · have := hb.2.2.2
    rw [ht] at this
    exact this
  · rw [run_of_started h]
    obtain ⟨rest, hrest⟩ := timeLoopRun_succ_head env v fuel (initialState env x0 tEnd maxDT dt)
    simp only [hrest]
    rfl
  · intro x xOld tl hm
    rw [run_of_started h] at hm
    simp only [initialWrites, List.cons_append, List.nil_append, List.mem_cons,
      reduceCtorEq, false_or] at hm
    have := timeLoopRun_bounded env v maxDT tEnd fuel _ hb x xOld tl hm
    exact ⟨this.2.2.1, this.2.2.2⟩

/-- C8, at a concrete configuration with `Dt` larger than both
`MaxTimeStepSize` and `TEnd`: the first solve is called with step size 1/4. -/
theorem step_size_bounded_at_every_solve_witness :
    (initialTimeLoop (demoEnv 1 (1 / 2) (1 / 4) 5) (1 / 2) (1 / 4) 5).timeStepSize ≤ 1 / 4 ∧
    0 + (initialTimeLoop (demoEnv 1 (1 / 2) (1 / 4) 5) (1 / 2) (1 / 4) 5).timeStepSize ≤ 1 / 2 :=
  have h := step_size_bounded_at_every_solve (demoEnv 1 (1 / 2) (1 / 4) 5) 10 0 1 (1 / 2) (1 / 4) 5
    ⟨rfl, rfl, rfl, rfl, rfl⟩
  ⟨h.2.1, h.2.2.1⟩

/-! ## Time accounting -/

section TimeAccounting

variable {Sol : Type}

theorem acceptedStepSizes_append (l1 l2 : List (Event Sol)) :
    acceptedStepSizes (l1 ++ l2) = acceptedStepSizes l1 ++ acceptedStepSizes l2 := by
  induction l1 with
  | nil => rfl
  | cons e l1 ih => cases e <;> simp [acceptedStepSizes, ih]

theorem acceptedStepSizes_eq_nil {l : List (Event Sol)}
    (h : ∀ ev ∈ l, (∃ site b, ev = Event.finished site b) ∨ (∃ d t x, ev = Event.write d t x)) :
    acceptedStepSizes l = [] := by
  induction l with
  | nil => rfl
  | cons e l ih =>
    have hl := ih (fun ev hev => h ev (List.mem_cons_of_mem _ hev))
    rcases h e (List.mem_cons_self _ _) with ⟨_, _, he⟩ | ⟨_, _, _, he⟩ <;>
      subst he <;> simpa [acceptedStepSizes] using hl

theorem acceptedStepSizes_pass {env : Env Sol} {s : State Sol} {v : Int} {due : Bool}
    {evs : List (Event Sol)} (ho : outputCondition v (advanced env s) = some (due, evs)) :
    acceptedStepSizes (stepEvents env s ++ outputEvents env s due evs) =
      [(afterSolve env s).timeStepSize] := by
  rw [acceptedStepSizes_append, acceptedStepSizes_eq_nil (fun ev hev => mem_outputEvents ho hev)]
  simp [stepEvents, acceptedStepSizes]

theorem timeLoopRun_time (env : Env Sol) (v : Int) (n : Nat) (s : State Sol) :
    (timeLoopRun env v n s).state.timeLoop.time =
      s.timeLoop.time + (acceptedStepSizes (timeLoopRun env v n s).trace).sum := by
  induction n generalizing s with
  | zero => simp [timeLoopRun, acceptedStepSizes]
  | succ n ih =>
    apply timeLoopRun_succ_cases
      (fun r => r.state.timeLoop.time = s.timeLoop.time + (acceptedStepSizes r.trace).sum)
    · intro e _
      simp [acceptedStepSizes]
    · intro _ _
      simp [stepEvents, acceptedStepSizes]
    · intro _ due evs ho _
      simp only [acceptedStepSizes_pass ho]
      simp
    · intro _ due evs ho _
      simp only [acceptedStepSizes_append _ (timeLoopRun env v n (accepted env s)).trace,
        acceptedStepSizes_pass ho, ih (accepted env s)]
      simp [add_assoc]

theorem timeLoopRun_completed_time_le (env : Env Sol) (v : Int) (maxDT tEnd : Scalar) (n : Nat)
    (s : State Sol) (hs : TimeLoop.Bounded maxDT tEnd s.timeLoop)
    (hc : (timeLoopRun env v n s).status = Status.completed) :
    (timeLoopRun env v n s).state.timeLoop.time ≤ tEnd := by
  induction n generalizing s with
  | zero => simp [timeLoopRun] at hc
  | succ n ih =>
    have hS : TimeLoop.Bounded maxDT tEnd (afterSolve env s) := TimeLoop.Bounded.foldl _ hs
    have hA : TimeLoop.Bounded maxDT tEnd (advanced env s) := hS.advanceTimeStep
    revert hc
    apply timeLoopRun_succ_cases
      (fun r => r.status = Status.completed → r.state.timeLoop.time ≤ tEnd)
    · intro e _ hc
      cases hc
    · intro _ _ hc
      cases hc
    · intro _ due evs _ _ _
      exact hS.2.2.2
    · intro _ due evs _ _ hc
      exact ih (accepted env s) hA hc

end TimeAccounting

/-- C4: for every run of `main` that completes normally, the sum of the step
sizes of the accepted steps (one per call of `advanceTimeStep()` in the loop,
starting from time 0) equals the final time of the time loop, and that final
time is at most `TimeLoop.TEnd`. -/
theorem accepted_steps_sum_to_final_time {Sol : Type} (env : Env Sol) (fuel : Nat)
    (hc : (run env fuel).status = Status.completed) :
    ∃ tEnd tlF, env.tEnd = Lookup.value tEnd ∧ (run env fuel).timeLoop = some tlF ∧
      (acceptedStepSizes (run env fuel).trace).sum = tlF.time ∧ tlF.time ≤ tEnd := by
  cases h0 : env.setup with
  | error e0 => simp [run, h0] at hc
  | ok x0 =>
    cases h1 : env.outputInterval <;> cases h2 : env.tEnd <;>
      cases h3 : env.maxTimeStepSize <;> cases h4 : env.dt <;>
      first
      | (simp [run, getParam, h0, h1, h2, h3, h4] at hc; done)
      | (rename_i v tEnd maxDT dt
         have hs : Started env x0 v tEnd maxDT dt := ⟨h0, h1, h2, h3, h4⟩
         rw [run_of_started hs] at hc
         have hb : TimeLoop.Bounded maxDT tEnd (initialTimeLoop env tEnd maxDT dt) :=
           TimeLoop.Bounded.create env.tolerance dt tEnd maxDT
         have ht := timeLoopRun_time env v fuel (initialState env x0 tEnd maxDT dt)
         have hle := timeLoopRun_completed_time_le env v maxDT tEnd fuel
           (initialState env x0 tEnd maxDT dt) hb hc
         have h00 : (initialState env x0 tEnd maxDT dt).timeLoop.time = 0 := rfl
         rw [h00, zero_add] at ht
         refine ⟨tEnd, _, rfl, by rw [run_of_started hs], ?_, hle⟩
         rw [run_of_started hs]
         simp only [acceptedStepSizes_append, initialWrites, acceptedStepSizes, List.nil_append]
         exact ht.symm)

/-- C4, at a concrete run: end time 5/2, step size 1: the accepted step sizes
are 1, 1 and 1/2. -/
theorem accepted_steps_sum_to_final_time_witness :
    (run (demoEnv 2 (5 / 2) 1 1) 10).status = Status.completed ∧
    acceptedStepSizes (run (demoEnv 2 (5 / 2) 1 1) 10).trace = [1, 1, 1 / 2] ∧
    ∃ tEnd tlF, (demoEnv 2 (5 / 2) 1 1).tEnd = Lookup.value tEnd ∧
      (run (demoEnv 2 (5 / 2) 1 1) 10).timeLoop = some tlF ∧
      (acceptedStepSizes (run (demoEnv 2 (5 / 2) 1 1) 10).trace).sum = tlF.time ∧
      tlF.time ≤ tEnd :=
  ⟨by decide!, by decide!,
    accepted_steps_sum_to_final_time (demoEnv 2 (5 / 2) 1 1) 10 (by decide!)⟩

/-! ## The sequence of snapshots -/

section Snapshots

variable {Sol : Type}

theorem snapshots_append (l1 l2 : List (Event Sol)) :
    snapshots (l1 ++ l2) = snapshots l1 ++ snapshots l2 := by
  induction l1 with
  | nil => rfl
  | cons e l1 ih => cases e <;> simp [snapshots, ih]

theorem acceptedSteps_append_of_output {l1 : List (Event Sol)}
    (h : ∀ ev ∈ l1, (∃ site b, ev = Event.finished site b) ∨ (∃ d t x, ev = Event.write d t x))
    (cur : Sol) (l2 : List (Event Sol)) :
    acceptedSteps cur (l1 ++ l2) = acceptedSteps cur l2 := by
  induction l1 with
  | nil => rfl
  | cons e l1 ih =>
    have hl := ih (fun ev hev => h ev (List.mem_cons_of_mem _ hev))
    rcases h e (List.mem_cons_self _ _) with ⟨_, _, he⟩ | ⟨_, _, _, he⟩ <;>
      subst he <;> simpa [acceptedSteps] using hl

/-- The accepted steps of a pass whose solve returned, followed by `rest`. -/
theorem acceptedSteps_pass {env : Env Sol} {s : State Sol} {v : Int} {due : Bool}
    {evs : List (Event Sol)} (ho : outputCondition v (advanced env s) = some (due, evs))
    (cur : Sol) (rest : List (Event Sol)) :
    acceptedSteps cur (stepEvents env s ++ outputEvents env s due evs ++ rest) =
      (advanced env s, (env.solve s.x s.xOld s.timeLoop).x) ::
        acceptedSteps (env.solve s.x s.xOld s.timeLoop).x rest := by
  have h := acceptedSteps_append_of_output (fun ev hev => mem_outputEvents ho hev)
    (env.solve s.x s.xOld s.timeLoop).x rest
  have hstep : ∀ l : List (Event Sol), acceptedSteps cur (stepEvents env s ++ l) =
      (advanced env s, (env.solve s.x s.xOld s.timeLoop).x) ::
        acceptedSteps (env.solve s.x s.xOld s.timeLoop).x l := by
    intro l
    simp [stepEvents, acceptedSteps]
  rw [List.append_assoc, hstep, h]

/-- The value of the output condition of line 220, when it has one. -/
theorem outputCondition_due {v : Int} {tl : TimeLoop} {due : Bool} {evs : List (Event Sol)}
    (ho : outputCondition v tl = some (due, evs)) :
    due = true ↔ (tl.timeStepIndex.tmod v = 0 ∨ tl.finished = true) := by
  obtain ⟨_, ⟨hd, _, h0 | h0⟩ | ⟨hd, _, _, h0⟩⟩ := outputCondition_eq_some ho
  · simp [hd, h0]
  · simp [hd, h0]
  · simp [hd, h0]

/-- The snapshots of a pass whose solve returned, followed by `rest`. -/
theorem snapshots_pass {env : Env Sol} {s : State Sol} {v : Int} {due : Bool}
    {evs : List (Event Sol)} (ho : outputCondition v (advanced env s) = some (due, evs))
    (rest : List (Event Sol)) :
    snapshots (stepEvents env s ++ outputEvents env s due evs ++ rest) =
      (if (advanced env s).timeStepIndex.tmod v = 0 ∨ (advanced env s).finished = true then
        [(Domain.oneP, (advanced env s).time, (env.solve s.x s.xOld s.timeLoop).x),
         (Domain.poroMech, (advanced env s).time, (env.solve s.x s.xOld s.timeLoop).x)]
       else []) ++ snapshots rest := by
  have hdue := outputCondition_due ho
  obtain ⟨_, ⟨_, he, _⟩ | ⟨_, he, _⟩⟩ := outputCondition_eq_some ho
  · subst he
    by_cases hc : (advanced env s).timeStepIndex.tmod v = 0 ∨ (advanced env s).finished = true
    · rw [if_pos hc, hdue.2 hc]
      simp [stepEvents, outputEvents, snapshots, snapshots_append]
    · rw [if_neg hc]
      have : due = false := by
        cases due
        · rfl
        · exact absurd (hdue.1 rfl) hc
      subst this
      simp [stepEvents, outputEvents, snapshots, snapshots_append]
  · subst he
    by_cases hc : (advanced env s).timeStepIndex.tmod v = 0 ∨ (advanced env s).finished = true
    · rw [if_pos hc, hdue.2 hc]
      simp [stepEvents, outputEvents, snapshots, snapshots_append]
    · rw [if_neg hc]
      have : due = false := by
        cases due
        · rfl
        · exact absurd (hdue.1 rfl) hc
      subst this
      simp [stepEvents, outputEvents, snapshots, snapshots_append]

theorem timeLoopRun_snapshots (env : Env Sol) (v : Int) (hv : v ≠ 0) (n : Nat) (s : State Sol)
    (cur : Sol) :
    snapshots (timeLoopRun env v n s).trace =
      expectedSnapshots v (s.timeLoop.timeStepIndex + 1)
        (acceptedSteps cur (timeLoopRun env v n s).trace) := by
  induction n generalizing s cur with
  | zero => simp [timeLoopRun, snapshots, acceptedSteps, expectedSnapshots]
  | succ n ih =>
    apply timeLoopRun_succ_cases
      (fun r => snapshots r.trace =
        expectedSnapshots v (s.timeLoop.timeStepIndex + 1) (acceptedSteps cur r.trace))
    · intro e _
      simp [snapshots, acceptedSteps, expectedSnapshots]
    · intro _ ho
      exact absurd (outputCondition_eq_none ho).2 hv
    · intro _ due evs ho _
      have h1 := snapshots_pass ho []
      have h2 := acceptedSteps_pass ho cur []
      rw [List.append_nil] at h1 h2
      show snapshots (stepEvents env s ++ outputEvents env s due evs) =
        expectedSnapshots v (s.timeLoop.timeStepIndex + 1)
          (acceptedSteps cur (stepEvents env s ++ outputEvents env s due evs))
      rw [h1, h2]
      simp [expectedSnapshots, snapshots, acceptedSteps]
    · intro _ due evs ho _
      have h1 := snapshots_pass ho (timeLoopRun env v n (accepted env s)).trace
      have h2 := acceptedSteps_pass ho cur (timeLoopRun env v n (accepted env s)).trace
      have h3 := ih (accepted env s) (env.solve s.x s.xOld s.timeLoop).x
      show snapshots (stepEvents env s ++ outputEvents env s due evs ++
          (timeLoopRun env v n (accepted env s)).trace) =
        expectedSnapshots v (s.timeLoop.timeStepIndex + 1)
          (acceptedSteps cur (stepEvents env s ++ outputEvents env s due evs ++
            (timeLoopRun env v n (accepted env s)).trace))
      rw [h1, h2, h3]
      simp [expectedSnapshots]

theorem timeLoopRun_index_pos (env : Env Sol) (v : Int) (n : Nat) (s : State Sol)
    (hs : 0 ≤ s.timeLoop.timeStepIndex) :
    ∀ dt tl, Event.advanceTimeStep dt tl ∈ (timeLoopRun env v n s).trace →
      1 ≤ tl.timeStepIndex := by
  induction n generalizing s with
  | zero => simp [timeLoopRun]
  | succ n ih =>
    have hA : (advanced env s).timeStepIndex = s.timeLoop.timeStepIndex + 1 := by simp
    have hstep : ∀ dt tl, Event.advanceTimeStep dt tl ∈ stepEvents env s →
        1 ≤ tl.timeStepIndex := by
      intro dt tl h
      simp only [stepEvents, List.mem_cons, reduceCtorEq, Event.advanceTimeStep.injEq,
        List.mem_singleton, false_or, or_false, List.not_mem_nil] at h
      rw [h.2, hA]
      omega
    have hout : ∀ due evs, outputCondition v (advanced env s) = some (due, evs) →
        ∀ dt tl, Event.advanceTimeStep dt tl ∉ outputEvents env s due evs := by
      intro due evs ho dt tl h
      rcases mem_outputEvents ho h with ⟨_, _, h1⟩ | ⟨_, _, _, h1⟩ <;> cases h1
    apply timeLoopRun_succ_cases
      (fun r => ∀ dt tl, Event.advanceTimeStep dt tl ∈ r.trace → 1 ≤ tl.timeStepIndex)
    · intro e _ dt tl h
      simp at h
    · intro _ _ dt tl h
      exact hstep dt tl h
    · intro _ due evs ho _ dt tl h
      rcases List.mem_append.1 h with h | h
      · exact hstep dt tl h
      · exact absurd h (hout due evs ho dt tl)
    · intro _ due evs ho _ dt tl h
      rcases List.mem_append.1 h with h | h
      · rcases List.mem_append.1 h with h | h
        · exact hstep dt tl h
        · exact absurd h (hout due evs ho dt tl)
      · exact ih (accepted env s) (by rw [accepted_timeLoop, hA]; omega) dt tl h

theorem timeLoopRun_last_snapshot (env : Env Sol) (v : Int) (n : Nat) (s : State Sol)
    (hc : (timeLoopRun env v n s).status = Status.completed) :
    (snapshots (timeLoopRun env v n s).trace).getLast? =
      some (Domain.poroMech, (timeLoopRun env v n s).state.timeLoop.time,
        (timeLoopRun env v n s).state.x) := by
  induction n generalizing s with
  | zero => simp [timeLoopRun] at hc
  | succ n ih =>
    revert hc
    apply timeLoopRun_succ_cases
      (fun r => r.status = Status.completed →
        (snapshots r.trace).getLast? = some (Domain.poroMech, r.state.timeLoop.time, r.state.x))
    · intro e _ hc
      cases hc
    · intro _ _ hc
      cases hc
    · intro _ due evs ho hf _
      have h1 := snapshots_pass ho []
      rw [List.append_nil] at h1
      show (snapshots (stepEvents env s ++ outputEvents env s due evs)).getLast? =
        some (Domain.poroMech, (accepted env s).timeLoop.time, (accepted env s).x)
      rw [h1]
      simp [hf, snapshots]
    · intro _ due evs ho _ hc
      have h1 := snapshots_pass ho (timeLoopRun env v n (accepted env s)).trace
      have h3 := ih (accepted env s) hc
      show (snapshots (stepEvents env s ++ outputEvents env s due evs ++
          (timeLoopRun env v n (accepted env s)).trace)).getLast? =
        some (Domain.poroMech, (timeLoopRun env v n (accepted env s)).state.timeLoop.time,
          (timeLoopRun env v n (accepted env s)).state.x)
      rw [h1, List.getLast?_append, h3]
      rfl

end Snapshots

/-- C9: on every run of `main` that passes start-up with a nonzero
`Problem.OutputInterval`, the snapshots written are: the initial solution at
time 0.0 by both writers, then, for the accepted steps k = 1, 2, ... of the
loop, both writers after step k exactly when `k % OutputInterval == 0` or
the time loop is finished after step k. After every `advanceTimeStep()` of
the loop the step index is at least 1, so the disjunct `timeStepIndex()==0`
never holds there. If the run completes normally, the last snapshot written
carries the final time and the final solution. -/
theorem snapshot_sequence {Sol : Type} (env : Env Sol) (fuel : Nat) (x0 : Sol)
    (v : Int) (tEnd maxDT dt : Scalar) (h : Started env x0 v tEnd maxDT dt) (hv : v ≠ 0) :
    snapshots (run env fuel).trace =
      (Domain.oneP, 0, x0) :: (Domain.poroMech, 0, x0) ::
        expectedSnapshots v 1 (acceptedSteps x0 (run env fuel).trace) ∧
    (∀ dt1 tl, Event.advanceTimeStep dt1 tl ∈ (run env fuel).trace → 1 ≤ tl.timeStepIndex) ∧
    ((run env fuel).status = Status.completed →
      ∃ tlF xF, (run env fuel).timeLoop = some tlF ∧ (run env fuel).x = some xF ∧
        (snapshots (run env fuel).trace).getLast? = some (Domain.poroMech, tlF.time, xF)) := by
  have hi : (initialState env x0 tEnd maxDT dt).timeLoop.timeStepIndex = 0 := rfl
  refine ⟨?_, ?_, ?_⟩
  · have := timeLoopRun_snapshots env v hv fuel (initialState env x0 tEnd maxDT dt) x0
    rw [hi] at this
    rw [run_of_started h]
    show (Domain.oneP, (0 : Scalar), x0) :: (Domain.poroMech, (0 : Scalar), x0) ::
        snapshots (timeLoopRun env v fuel (initialState env x0 tEnd maxDT dt)).trace =
      (Domain.oneP, 0, x0) :: (Domain.poroMech, 0, x0) :: expectedSnapshots v 1
        (acceptedSteps x0 (timeLoopRun env v fuel (initialState env x0 tEnd maxDT dt)).trace)
    rw [this]
    rfl
  · intro dt1 tl hm
    rw [run_of_started h] at hm
    simp only [initialWrites, List.cons_append, List.nil_append, List.mem_cons,
      reduceCtorEq, false_or] at hm
    exact timeLoopRun_index_pos env v fuel (initialState env x0 tEnd maxDT dt)
      (le_of_eq hi.symm) dt1 tl hm
  · intro hc
    rw [run_of_started h] at hc
    have := timeLoopRun_last_snapshot env v fuel (initialState env x0 tEnd maxDT dt) hc
    refine ⟨_, _, by rw [run_of_started h], by rw [run_of_started h], ?_⟩
    rw [run_of_started h]
    simp only [snapshots_append, List.getLast?_append, this]
    rfl

/-- C9, at a concrete run: output interval 2, end time 3, step size 1: the
snapshots are the initial one, the one after step 2 and the one after the
final step 3. -/
theorem snapshot_sequence_witness :
    (run (demoEnv 2 3 1 1) 10).status = Status.completed ∧
    snapshots (run (demoEnv 2 3 1 1) 10).trace =
      [(Domain.oneP, 0, 0), (Domain.poroMech, 0, 0), (Domain.oneP, 2, 2), (Domain.poroMech, 2, 2),
       (Domain.oneP, 3, 3), (Domain.poroMech, 3, 3)] ∧
    snapshots (run (demoEnv 2 3 1 1) 10).trace =
      (Domain.oneP, 0, 0) :: (Domain.poroMech, 0, 0) ::
        expectedSnapshots 2 1 (acceptedSteps 0 (run (demoEnv 2 3 1 1) 10).trace) :=
  ⟨by decide!, by decide!,
    (snapshot_sequence (demoEnv 2 3 1 1) 10 0 2 3 1 1 ⟨rfl, rfl, rfl, rfl, rfl⟩ (by decide)).1⟩

/-! ## Output after accepted steps -/

section OutputAfterStep

variable {Sol : Type}

theorem timeLoopRun_due_steps_written (env : Env Sol) (v : Int) (hv : v ≠ 0) (n : Nat)
    (s : State Sol) (cur : Sol) :
    ∀ tl x, (tl, x) ∈ acceptedSteps cur (timeLoopRun env v n s).trace →
      (tl.timeStepIndex.tmod v = 0 ∨ tl.finished = true) →
      (Domain.oneP, tl.time, x) ∈ snapshots (timeLoopRun env v n s).trace ∧
      (Domain.poroMech, tl.time, x) ∈ snapshots (timeLoopRun env v n s).trace := by
  induction n generalizing s cur with
  | zero => simp [timeLoopRun, acceptedSteps]
  | succ n ih =>
    apply timeLoopRun_succ_cases
      (fun r => ∀ tl x, (tl, x) ∈ acceptedSteps cur r.trace →
        (tl.timeStepIndex.tmod v = 0 ∨ tl.finished = true) →
        (Domain.oneP, tl.time, x) ∈ snapshots r.trace ∧
        (Domain.poroMech, tl.time, x) ∈ snapshots r.trace)
    · intro e _ tl x hm
      simp [acceptedSteps] at hm
    · intro _ ho
      exact absurd (outputCondition_eq_none ho).2 hv
    · intro _ due evs ho _ tl x hm hc
      have h1 := snapshots_pass ho []
      have h2 := acceptedSteps_pass ho cur []
      rw [List.append_nil] at h1 h2
      have hm1 : (tl, x) ∈ acceptedSteps cur (stepEvents env s ++ outputEvents env s due evs) := hm
      show (Domain.oneP, tl.time, x) ∈
          snapshots (stepEvents env s ++ outputEvents env s due evs) ∧
        (Domain.poroMech, tl.time, x) ∈
          snapshots (stepEvents env s ++ outputEvents env s due evs)
      rw [h2] at hm1
      rw [h1]
      simp only [acceptedSteps, List.mem_singleton, Prod.mk.injEq] at hm1
      obtain ⟨htl, hx⟩ := hm1
      subst htl hx
      rw [if_pos hc]
      simp
    · intro _ due evs ho _ tl x hm hc
      have h1 := snapshots_pass ho (timeLoopRun env v n (accepted env s)).trace
      have h2 := acceptedSteps_pass ho cur (timeLoopRun env v n (accepted env s)).trace
      have hm1 : (tl, x) ∈ acceptedSteps cur (stepEvents env s ++ outputEvents env s due evs ++
          (timeLoopRun env v n (accepted env s)).trace) := hm
      show (Domain.oneP, tl.time, x) ∈
          snapshots (stepEvents env s ++ outputEvents env s due evs ++
            (timeLoopRun env v n (accepted env s)).trace) ∧
        (Domain.poroMech, tl.time, x) ∈
          snapshots (stepEvents env s ++ outputEvents env s due evs ++
            (timeLoopRun env v n (accepted env s)).trace)
      rw [h2] at hm1
      rw [h1]
      rcases List.mem_cons.1 hm1 with hm2 | hm2
      · simp only [Prod.mk.injEq] at hm2
        obtain ⟨htl, hx⟩ := hm2
        subst htl hx
        rw [if_pos hc]
        simp
      · have := ih (accepted env s) _ tl x hm2 hc
        exact ⟨List.mem_append_right _ this.1, List.mem_append_right _ this.2⟩

end OutputAfterStep

/-- C5, as stated, fails: with output interval 2, end time 3 and step size 1
the run completes with three accepted steps, at times 1, 2 and 3 with the
solutions 1, 2 and 3, and no writer is invoked after the first of them: the
snapshots are those of time 0, 2 and 3 only. -/
theorem not_every_accepted_step_written :
    (run (demoEnv 2 3 1 1) 10).status = Status.completed ∧
    (acceptedSteps 0 (run (demoEnv 2 3 1 1) 10).trace).map (fun p => (p.1.time, p.2)) =
      [(1, 1), (2, 2), (3, 3)] ∧
    (snapshots (run (demoEnv 2 3 1 1) 10).trace).map (fun p => (p.2.1, p.2.2)) =
      [(0, 0), (0, 0), (2, 2), (2, 2), (3, 3), (3, 3)] := by
  decide!

/-- C5, amended: in a pass of the loop whose Newton solve returns, with a
nonzero output interval, the calls after `advanceTimeStep()` and the two
grid-variable updates are: at most a call of `finished()`, then both writers
with the time after `advanceTimeStep()` and the solution the solve returned,
exactly when the step index is a multiple of the interval or the time loop is
finished, then the `finished()` call of the loop condition. In every run that
passes start-up with a nonzero interval, every accepted step whose index is a
multiple of the interval or after which the time loop is finished is written
by both writers with its time and its solution; with interval 1 that is
every accepted step. -/
theorem writers_invoked_when_output_due {Sol : Type} (env : Env Sol) (v : Int) (hv : v ≠ 0) :
    (∀ s : State Sol, (env.solve s.x s.xOld s.timeLoop).thrown = none →
      ∃ evs : List (Event Sol),
        (∀ ev ∈ evs, ev = Event.finished Site.outputCondition (advanced env s).finished) ∧
        (loopBody env v s).2.2 = stepEvents env s ++ evs ++
          (if (advanced env s).timeStepIndex.tmod v = 0 ∨ (advanced env s).finished = true then
            [Event.write Domain.oneP (advanced env s).time (env.solve s.x s.xOld s.timeLoop).x,
             Event.write Domain.poroMech (advanced env s).time (env.solve s.x s.xOld s.timeLoop).x]
           else []) ++
          [Event.finished Site.loopCondition (advanced env s).finished]) ∧
    (∀ fuel x0 tEnd maxDT dt, Started env x0 v tEnd maxDT dt →
      ∀ tl x, (tl, x) ∈ acceptedSteps x0 (run env fuel).trace →
        (tl.timeStepIndex.tmod v = 0 ∨ tl.finished = true ∨ v = 1) →
        (Domain.oneP, tl.time, x) ∈ snapshots (run env fuel).trace ∧
        (Domain.poroMech, tl.time, x) ∈ snapshots (run env fuel).trace) := by
  constructor
  · intro s hr
    cases ho : @outputCondition Sol v (advanced env s) with
    | none => exact absurd (outputCondition_eq_none ho).2 hv
    | some p =>
      obtain ⟨due, evs⟩ := p
      have hdue := outputCondition_due ho
      have ho1 : @outputCondition Sol v
          ((env.solve s.x s.xOld s.timeLoop).stepSizes.foldl TimeLoop.setTimeStepSize
            s.timeLoop).advanceTimeStep = some (due, evs) := ho
      have hbody : (loopBody env v s).2.2 =
          stepEvents env s ++ evs ++
            (if due = true then
              [Event.write Domain.oneP (advanced env s).time (env.solve s.x s.xOld s.timeLoop).x,
               Event.write Domain.poroMech (advanced env s).time
                 (env.solve s.x s.xOld s.timeLoop).x]
             else []) ++
            [Event.finished Site.loopCondition (advanced env s).finished] := by
        simp only [loopBody, hr, ho1]
        rfl
      refine ⟨evs, ?_, ?_⟩
      · obtain ⟨_, ⟨_, he, _⟩ | ⟨_, he, _⟩⟩ := outputCondition_eq_some ho
        · subst he
          simp
        · subst he
          simp
      · rw [hbody]
        by_cases hc : (advanced env s).timeStepIndex.tmod v = 0 ∨ (advanced env s).finished = true
        · rw [if_pos hc, if_pos (hdue.2 hc)]
        · rw [if_neg hc, if_neg (fun hd => hc (hdue.1 hd))]
  · intro fuel x0 tEnd maxDT dt h tl x hm hc
    have hc1 : tl.timeStepIndex.tmod v = 0 ∨ tl.finished = true := by
      rcases hc with hc | hc | hc
      · exact Or.inl hc
      · exact Or.inr hc
      · subst hc
        exact Or.inl (Int.tmod_one _)
    rw [run_of_started h] at hm ⊢
    have hm1 : (tl, x) ∈ acceptedSteps x0
        (timeLoopRun env v fuel (initialState env x0 tEnd maxDT dt)).trace := hm
    have := timeLoopRun_due_steps_written env v hv fuel _ x0 tl x hm1 hc1
    show (Domain.oneP, tl.time, x) ∈ snapshots (initialWrites x0 ++
        (timeLoopRun env v fuel (initialState env x0 tEnd maxDT dt)).trace) ∧
      (Domain.poroMech, tl.time, x) ∈ snapshots (initialWrites x0 ++
        (timeLoopRun env v fuel (initialState env x0 tEnd maxDT dt)).trace)
    rw [snapshots_append]
    exact ⟨List.mem_append_right _ this.1, List.mem_append_right _ this.2⟩

/-- C5 amended, at a concrete run with output interval 1: the step accepted
at time 1 with solution 1 is written by both writers. -/
theorem writers_invoked_when_output_due_witness :
    (Domain.oneP, 1, 1) ∈ snapshots (run (demoEnv 1 3 1 1) 10).trace ∧
    (Domain.poroMech, 1, 1) ∈ snapshots (run (demoEnv 1 3 1 1) 10).trace :=
  (writers_invoked_when_output_due (demoEnv 1 3 1 1) 1 (by decide)).2 10 0 3 1 1
    ⟨rfl, rfl, rfl, rfl, rfl⟩
    { time := 1, timeStepSize := 1, maxTimeStepSize := some 1, endTime := 3,
      timeStepIndex := 1, tolerance := 0 } 1 (by decide!) (Or.inr (Or.inr rfl))

/-! ## The shape of the loop -/

section DoWhile

variable {Sol : Type}

/-- The events of lines 220-249 end with the `finished()` call of the loop
condition; before it there is no such call. -/
theorem outputEvents_eq {env : Env Sol} {s : State Sol} {v : Int} {due : Bool}
    {evs : List (Event Sol)} (ho : outputCondition v (advanced env s) = some (due, evs)) :
    ∃ front : List (Event Sol),
      outputEvents env s due evs =
        front ++ [Event.finished Site.loopCondition (advanced env s).finished] ∧
      ∀ b, Event.finished Site.loopCondition b ∉ front := by
  refine ⟨evs ++ (if due then
      [Event.write Domain.oneP (advanced env s).time (env.solve s.x s.xOld s.timeLoop).x,
       Event.write Domain.poroMech (advanced env s).time (env.solve s.x s.xOld s.timeLoop).x]
    else []), rfl, ?_⟩
  intro b hm
  obtain ⟨_, ⟨_, he, _⟩ | ⟨_, he, _⟩⟩ := outputCondition_eq_some ho
  · subst he
    cases due <;> simp at hm
  · subst he
    cases due <;> simp at hm

theorem loopCondition_not_mem_stepEvents (env : Env Sol) (s : State Sol) (site : Site) (b : Bool) :
    Event.finished site b ∉ stepEvents env s := by
  simp [stepEvents]

theorem singleton_append_split {α : Type} {a b : α} {rest q post : List α}
    (h : a :: rest = q ++ b :: post) :
    (q = [] ∧ a = b ∧ rest = post) ∨ ∃ q1, q = a :: q1 ∧ rest = q1 ++ b :: post := by
  cases q with
  | nil =>
    simp only [List.nil_append, List.cons.injEq] at h
    exact Or.inl ⟨rfl, h.1, h.2⟩
  | cons c q =>
    simp only [List.cons_append, List.cons.injEq] at h
    exact Or.inr ⟨q, by rw [h.1], h.2⟩

theorem timeLoopRun_loopCondition (env : Env Sol) (v : Int) (n : Nat) (s : State Sol) :
    (∀ pre post, (timeLoopRun env v n s).trace =
        pre ++ Event.finished Site.loopCondition true :: post →
      post = [] ∧ (timeLoopRun env v n s).status = Status.completed) ∧
    ((timeLoopRun env v n s).status = Status.completed →
      ∃ pre, (timeLoopRun env v n s).trace = pre ++ [Event.finished Site.loopCondition true]) ∧
    (∀ pre post, (timeLoopRun env v n s).trace =
        pre ++ Event.finished Site.loopCondition false :: post →
      (post = [] ∧ (timeLoopRun env v n s).status = Status.running) ∨
        ∃ x xOld tl post1, post = Event.solveCall x xOld tl :: post1) := by
  induction n generalizing s with
  | zero =>
    refine ⟨?_, ?_, ?_⟩
    · intro pre post h
      simp [timeLoopRun] at h
    · intro h
      simp [timeLoopRun] at h
    · intro pre post h
      simp [timeLoopRun] at h
  | succ n ih =>
    have hmem : ∀ {l pre post : List (Event Sol)} {b : Bool},
        l = pre ++ Event.finished Site.loopCondition b :: post →
        Event.finished Site.loopCondition b ∈ l := by
      intro l pre post b h
      rw [h]
      simp
    apply timeLoopRun_succ_cases
      (fun r => (∀ pre post, r.trace = pre ++ Event.finished Site.loopCondition true :: post →
          post = [] ∧ r.status = Status.completed) ∧
        (r.status = Status.completed →
          ∃ pre, r.trace = pre ++ [Event.finished Site.loopCondition true]) ∧
        (∀ pre post, r.trace = pre ++ Event.finished Site.loopCondition false :: post →
          (post = [] ∧ r.status = Status.running) ∨
            ∃ x xOld tl post1, post = Event.solveCall x xOld tl :: post1))
    · intro e _
      refine ⟨?_, ?_, ?_⟩
      · intro pre post h
        have := hmem h
        simp at this
      · intro h
        cases h
      · intro pre post h
        have := hmem h
        simp at this
    · intro _ _
      refine ⟨?_, ?_, ?_⟩
      · intro pre post h
        exact absurd (hmem h) (loopCondition_not_mem_stepEvents env s _ _)
      · intro h
        cases h
      · intro pre post h
        exact absurd (hmem h) (loopCondition_not_mem_stepEvents env s _ _)
    · intro _ due evs ho hf
      obtain ⟨front, hfront, hnot⟩ := outputEvents_eq ho
      rw [hf] at hfront
      have hnotin : ∀ b, Event.finished Site.loopCondition b ∉ stepEvents env s ++ front := by
        intro b hm
        rcases List.mem_append.1 hm with hm | hm
        · exact loopCondition_not_mem_stepEvents env s _ _ hm
        · exact hnot b hm
      have htrace : stepEvents env s ++ outputEvents env s due evs =
          (stepEvents env s ++ front) ++ [Event.finished Site.loopCondition true] := by
        rw [hfront, List.append_assoc]
      refine ⟨?_, ?_, ?_⟩
      · intro pre post h
        have h1 : (stepEvents env s ++ front) ++ [Event.finished Site.loopCondition true] =
            pre ++ Event.finished Site.loopCondition true :: post := by
          rw [← htrace]; exact h
        obtain ⟨q, _, hq2⟩ := append_split_of_not_mem h1 (hnotin true)
        rcases singleton_append_split hq2 with ⟨_, _, hp⟩ | ⟨q1, _, hq3⟩
        · exact ⟨hp.symm, rfl⟩
        · have : Event.finished Site.loopCondition true ∈ ([] : List (Event Sol)) := by
            rw [hq3]; simp
          simp at this
      · intro _
        exact ⟨_, htrace⟩
      · intro pre post h
        have h1 : (stepEvents env s ++ front) ++ [Event.finished Site.loopCondition true] =
            pre ++ Event.finished Site.loopCondition false :: post := by
          rw [← htrace]; exact h
        obtain ⟨q, _, hq2⟩ := append_split_of_not_mem h1 (hnotin false)
        rcases singleton_append_split hq2 with ⟨_, hb, _⟩ | ⟨q1, _, hq3⟩
        · simp at hb
        · have : Event.finished Site.loopCondition false ∈ ([] : List (Event Sol)) := by
            rw [hq3]; simp
          simp at this
    · intro _ due evs ho hf
      obtain ⟨front, hfront, hnot⟩ := outputEvents_eq ho
      rw [hf] at hfront
      have hnotin : ∀ b, Event.finished Site.loopCondition b ∉ stepEvents env s ++ front := by
        intro b hm
        rcases List.mem_append.1 hm with hm | hm
        · exact loopCondition_not_mem_stepEvents env s _ _ hm
        · exact hnot b hm
      have htrace : stepEvents env s ++ outputEvents env s due evs ++
            (timeLoopRun env v n (accepted env s)).trace =
          (stepEvents env s ++ front) ++ (Event.finished Site.loopCondition false ::
            (timeLoopRun env v n (accepted env s)).trace) := by
        rw [hfront]
        simp only [List.append_assoc, List.singleton_append]
      obtain ⟨ih1, ih2, ih3⟩ := ih (accepted env s)
      refine ⟨?_, ?_, ?_⟩
      · intro pre post h
        have h1 : (stepEvents env s ++ front) ++ (Event.finished Site.loopCondition false ::
            (timeLoopRun env v n (accepted env s)).trace) =
            pre ++ Event.finished Site.loopCondition true :: post := by
          rw [← htrace]; exact h
        obtain ⟨q, _, hq2⟩ := append_split_of_not_mem h1 (hnotin true)
        rcases singleton_append_split hq2 with ⟨_, hb, _⟩ | ⟨q1, _, hq3⟩
        · simp at hb
        · exact ih1 q1 post hq3
      · intro hc
        obtain ⟨pre, hpre⟩ := ih2 hc
        refine ⟨stepEvents env s ++ outputEvents env s due evs ++ pre, ?_⟩
        show stepEvents env s ++ outputEvents env s due evs ++
            (timeLoopRun env v n (accepted env s)).trace = _
        rw [hpre]
        simp only [List.append_assoc]
      · intro pre post h
        have h1 : (stepEvents env s ++ front) ++ (Event.finished Site.loopCondition false ::
            (timeLoopRun env v n (accepted env s)).trace) =
            pre ++ Event.finished Site.loopCondition false :: post := by
          rw [← htrace]; exact h
        obtain ⟨q, _, hq2⟩ := append_split_of_not_mem h1 (hnotin false)
        rcases singleton_append_split hq2 with ⟨_, _, hp⟩ | ⟨q1, _, hq3⟩
        · cases n with
          | zero =>
            left
            exact ⟨by rw [← hp]; rfl, rfl⟩
          | succ m =>
            right
            obtain ⟨rest, hrest⟩ := timeLoopRun_succ_head env v m (accepted env s)
            exact ⟨_, _, _, rest, by rw [← hp, hrest]⟩
        · exact ih3 q1 post hq3

theorem timeLoopRun_finished_after_step (env : Env Sol) (v : Int) (n : Nat) (s : State Sol)
    (pre post : List (Event Sol)) (site : Site) (b : Bool)
    (h : (timeLoopRun env v n s).trace = pre ++ Event.finished site b :: post) :
    (∃ x xOld tl, Event.solveCall x xOld tl ∈ pre) ∧
    (∃ dt tl, Event.advanceTimeStep dt tl ∈ pre) := by
  have hmem : Event.finished site b ∈ (timeLoopRun env v n s).trace := by rw [h]; simp
  cases n with
  | zero => simp [timeLoopRun] at hmem
  | succ n =>
    revert h hmem
    apply timeLoopRun_succ_cases
      (fun r => r.trace = pre ++ Event.finished site b :: post → Event.finished site b ∈ r.trace →
        (∃ x xOld tl, Event.solveCall x xOld tl ∈ pre) ∧
        (∃ dt tl, Event.advanceTimeStep dt tl ∈ pre))
    · intro e _ _ hm
      simp at hm
    · intro _ _ _ hm
      exact absurd hm (loopCondition_not_mem_stepEvents env s _ _)
    · intro _ due evs _ _ h _
      obtain ⟨q, hq, _⟩ := append_split_of_not_mem h (loopCondition_not_mem_stepEvents env s _ _)
      rw [hq]
      exact ⟨⟨s.x, s.xOld, s.timeLoop, List.mem_append_left _ (by simp [stepEvents])⟩,
        ⟨(afterSolve env s).timeStepSize, advanced env s,
          List.mem_append_left _ (by simp [stepEvents])⟩⟩
    · intro _ due evs _ _ h _
      have h1 : stepEvents env s ++ (outputEvents env s due evs ++
          (timeLoopRun env v n (accepted env s)).trace) = pre ++ Event.finished site b :: post := by
        rw [← List.append_assoc]; exact h
      obtain ⟨q, hq, _⟩ := append_split_of_not_mem h1 (loopCondition_not_mem_stepEvents env s _ _)
      rw [hq]
      exact ⟨⟨s.x, s.xOld, s.timeLoop, List.mem_append_left _ (by simp [stepEvents])⟩,
        ⟨(afterSolve env s).timeStepSize, advanced env s,
          List.mem_append_left _ (by simp [stepEvents])⟩⟩

theorem solveCalls_append (l1 l2 : List (Event Sol)) :
    solveCalls (l1 ++ l2) = solveCalls l1 ++ solveCalls l2 := by
  induction l1 with
  | nil => rfl
  | cons e l1 ih => cases e <;> simp [solveCalls, ih]

theorem loopConditions_append (l1 l2 : List (Event Sol)) :
    loopConditions (l1 ++ l2) = loopConditions l1 ++ loopConditions l2 := by
  induction l1 with
  | nil => rfl
  | cons e l1 ih =>
    cases e with
    | finished site b => cases site <;> simp [loopConditions, ih]
    | write d t x => simp [loopConditions, ih]
    | solveCall x xOld tl => simp [loopConditions, ih]
    | solveThrow e => simp [loopConditions, ih]
    | solveReturn x xOld tl => simp [loopConditions, ih]
    | assignOld x => simp [loopConditions, ih]
    | advanceTimeStep dt tl => simp [loopConditions, ih]
    | gridAdvance d => simp [loopConditions, ih]

/-- A pass whose solve returns calls the solve once and consults `finished()`
at line 249 once, on the time loop after `advanceTimeStep()`. -/
theorem pass_calls_and_condition {env : Env Sol} {s : State Sol} {v : Int} {due : Bool}
    {evs : List (Event Sol)} (ho : outputCondition v (advanced env s) = some (due, evs)) :
    solveCalls (stepEvents env s ++ outputEvents env s due evs) = [(s.x, s.xOld, s.timeLoop)] ∧
    loopConditions (stepEvents env s ++ outputEvents env s due evs) =
      [(advanced env s).finished] := by
  obtain ⟨_, ⟨_, he, _⟩ | ⟨_, he, _⟩⟩ := outputCondition_eq_some ho
  · subst he
    cases due <;> simp [stepEvents, outputEvents, solveCalls, loopConditions]
  · subst he
    cases due <;> simp [stepEvents, outputEvents, solveCalls, loopConditions]

theorem passCalls_succ (env : Env Sol) (N : Nat) (s : State Sol) :
    passCalls env (N + 1) s =
      passCalls env N s ++ [((passState env N s).x, (passState env N s).xOld,
        (passState env N s).timeLoop)] := by
  induction N generalizing s with
  | zero => rfl
  | succ N ih =>
    show (s.x, s.xOld, s.timeLoop) :: passCalls env (N + 1) (accepted env s) = _
    rw [ih (accepted env s)]
    rfl

/-- The pass that ends the loop: the solve returns and `finished()` is true
after `advanceTimeStep()`. Whatever budget is left, the loop ends here. -/
theorem timeLoopRun_last_pass (env : Env Sol) (v : Int) (hv : v ≠ 0) (r : Nat) (s : State Sol)
    (hret : (env.solve s.x s.xOld s.timeLoop).thrown = none)
    (hfin : (advanced env s).finished = true) :
    (timeLoopRun env v (r + 1) s).status = Status.completed ∧
    (timeLoopRun env v (r + 1) s).state = accepted env s ∧
    solveCalls (timeLoopRun env v (r + 1) s).trace = [(s.x, s.xOld, s.timeLoop)] ∧
    loopConditions (timeLoopRun env v (r + 1) s).trace = [true] := by
  apply timeLoopRun_succ_cases
    (fun R => R.status = Status.completed ∧ R.state = accepted env s ∧
      solveCalls R.trace = [(s.x, s.xOld, s.timeLoop)] ∧ loopConditions R.trace = [true])
  · intro e he
    rw [hret] at he
    cases he
  · intro _ ho
    exact absurd (outputCondition_eq_none ho).2 hv
  · intro _ due evs ho _
    obtain ⟨h1, h2⟩ := pass_calls_and_condition ho
    rw [hfin] at h2
    exact ⟨rfl, rfl, h1, h2⟩
  · intro _ due evs _ hf
    rw [hfin] at hf
    cases hf

/-- The passes that do not end the loop: as long as the solves return and
`finished()` is false after `advanceTimeStep()`, the loop goes on with the
budget that is left. -/
theorem timeLoopRun_passes (env : Env Sol) (v : Int) (hv : v ≠ 0) (N : Nat) (s : State Sol)
    (hret : ∀ k, k < N → (env.solve (passState env k s).x (passState env k s).xOld
      (passState env k s).timeLoop).thrown = none)
    (hfin : ∀ k, k < N → (advanced env (passState env k s)).finished = false) (r : Nat) :
    (timeLoopRun env v (N + r) s).status = (timeLoopRun env v r (passState env N s)).status ∧
    (timeLoopRun env v (N + r) s).state = (timeLoopRun env v r (passState env N s)).state ∧
    solveCalls (timeLoopRun env v (N + r) s).trace =
      passCalls env N s ++ solveCalls (timeLoopRun env v r (passState env N s)).trace ∧
    loopConditions (timeLoopRun env v (N + r) s).trace =
      List.replicate N false ++ loopConditions (timeLoopRun env v r (passState env N s)).trace := by
  induction N generalizing s with
  | zero =>
    rw [Nat.zero_add]
    exact ⟨rfl, rfl, rfl, rfl⟩
  | succ N ih =>
    have hrw : N + 1 + r = (N + r) + 1 := by omega
    rw [hrw]
    have h0 : (env.solve s.x s.xOld s.timeLoop).thrown = none := hret 0 (Nat.succ_pos N)
    have hf0 : (advanced env s).finished = false := hfin 0 (Nat.succ_pos N)
    have ih1 := ih (accepted env s)
      (fun k hk => hret (k + 1) (Nat.succ_lt_succ hk))
      (fun k hk => hfin (k + 1) (Nat.succ_lt_succ hk))
    apply timeLoopRun_succ_cases
      (fun R => R.status = (timeLoopRun env v r (passState env (N + 1) s)).status ∧
        R.state = (timeLoopRun env v r (passState env (N + 1) s)).state ∧
        solveCalls R.trace = passCalls env (N + 1) s ++
          solveCalls (timeLoopRun env v r (passState env (N + 1) s)).trace ∧
        loopConditions R.trace = List.replicate (N + 1) false ++
          loopConditions (timeLoopRun env v r (passState env (N + 1) s)).trace)
    · intro e he
      rw [h0] at he
      cases he
    · intro _ ho
      exact absurd (outputCondition_eq_none ho).2 hv
    · intro _ due evs _ hf
      rw [hf0] at hf
      cases hf
    · intro _ due evs ho _
      obtain ⟨h1, h2⟩ := pass_calls_and_condition ho
      rw [hf0] at h2
      obtain ⟨i1, i2, i3, i4⟩ := ih1
      refine ⟨i1, i2, ?_, ?_⟩
      · show solveCalls (stepEvents env s ++ outputEvents env s due evs ++
            (timeLoopRun env v (N + r) (accepted env s)).trace) = _
        rw [solveCalls_append, h1, i3]
        rfl
      · show loopConditions (stepEvents env s ++ outputEvents env s due evs ++
            (timeLoopRun env v (N + r) (accepted env s)).trace) = _
        rw [loopConditions_append, h2, i4]
        rfl

end DoWhile

/-- C10: the loop of `main` is a `do ... while`. For every configuration that
passes start-up, whatever `TimeLoop.TEnd` is: the first thing the loop does is
to call the Newton solve, with the initial solution and the time loop as
built; if that solve returns, `xOld = x`, `advanceTimeStep()` and the two
grid-variable updates follow; every call of `finished()` in the run comes
after a call of the Newton solve and after a call of `advanceTimeStep()`;
once the `finished()` call of the loop condition returns true nothing follows
and the run is complete, a complete run ends with such a call, and after a
call that returns false the next pass begins with the next Newton solve.
The loop ends after the first step at whose end `finished()` is true: with a
nonzero output interval, if the Newton solves of the first `N + 1` passes
return, `finished()` is false on the time loop after `advanceTimeStep()` in
the first `N` passes and true in pass `N + 1`, then every run with room for
at least `N + 1` passes completes after exactly `N + 1` Newton solves, in the
state pass `N + 1` leaves, having consulted `finished()` at line 249 once per
pass with the results false (`N` times) and true; a run with room for only
`n ≤ N` passes has made `n` solves and is still running. -/
theorem loop_is_do_while {Sol : Type} (env : Env Sol) (fuel : Nat) (x0 : Sol)
    (v : Int) (tEnd maxDT dt : Scalar) (h : Started env x0 v tEnd maxDT dt) :
    (run env (fuel + 1)).trace.take 3 =
      initialWrites x0 ++ [Event.solveCall x0 x0 (initialTimeLoop env tEnd maxDT dt)] ∧
    ((env.solve x0 x0 (initialTimeLoop env tEnd maxDT dt)).thrown = none →
      (run env (fuel + 1)).trace.take 8 =
        initialWrites x0 ++ stepEvents env (initialState env x0 tEnd maxDT dt)) ∧
    (∀ pre site b post, (run env fuel).trace = pre ++ Event.finished site b :: post →
      (∃ x xOld tl, Event.solveCall x xOld tl ∈ pre) ∧
      (∃ dt1 tl, Event.advanceTimeStep dt1 tl ∈ pre)) ∧
    (∀ pre post, (run env fuel).trace = pre ++ Event.finished Site.loopCondition true :: post →
      post = [] ∧ (run env fuel).status = Status.completed) ∧
    ((run env fuel).status = Status.completed →
      ∃ pre, (run env fuel).trace = pre ++ [Event.finished Site.loopCondition true]) ∧
    (∀ pre post, (run env fuel).trace = pre ++ Event.finished Site.loopCondition false :: post →
      (post = [] ∧ (run env fuel).status = Status.running) ∨
        ∃ x xOld tl post1, post = Event.solveCall x xOld tl :: post1) ∧
    (∀ N : Nat, v ≠ 0 →
      (∀ k, k < N + 1 →
        (env.solve (passState env k (initialState env x0 tEnd maxDT dt)).x
          (passState env k (initialState env x0 tEnd maxDT dt)).xOld
          (passState env k (initialState env x0 tEnd maxDT dt)).timeLoop).thrown = none) →
      (∀ k, k < N →
        (advanced env (passState env k (initialState env x0 tEnd maxDT dt))).finished = false) →
      (advanced env (passState env N (initialState env x0 tEnd maxDT dt))).finished = true →
      (∀ m : Nat,
        (run env (N + (m + 1))).status = Status.completed ∧
        main env (N + (m + 1)) = some 0 ∧
        (run env (N + (m + 1))).timeLoop =
          some (advanced env (passState env N (initialState env x0 tEnd maxDT dt))) ∧
        (run env (N + (m + 1))).x =
          some (accepted env (passState env N (initialState env x0 tEnd maxDT dt))).x ∧
        solveCalls (run env (N + (m + 1))).trace =
          passCalls env (N + 1) (initialState env x0 tEnd maxDT dt) ∧
        loopConditions (run env (N + (m + 1))).trace = List.replicate N false ++ [true]) ∧
      (∀ n : Nat, n ≤ N →
        (run env n).status = Status.running ∧
        solveCalls (run env n).trace = passCalls env n (initialState env x0 tEnd maxDT dt) ∧
        loopConditions (run env n).trace = List.replicate n false)) := by
  obtain ⟨l1, l2, l3⟩ := timeLoopRun_loopCondition env v fuel (initialState env x0 tEnd maxDT dt)
  have hinit : ∀ site b, Event.finished site b ∉ initialWrites x0 := by
    intro site b hm
    simp [initialWrites] at hm
  refine ⟨?_, ?_, ?_, ?_, ?_, ?_, ?_⟩
  · obtain ⟨rest, hrest⟩ := timeLoopRun_succ_head env v fuel (initialState env x0 tEnd maxDT dt)
    rw [run_of_started h]
    simp only [hrest]
    rfl
  · intro hr
    obtain ⟨rest, hrest⟩ :=
      timeLoopRun_succ_steps env v fuel (initialState env x0 tEnd maxDT dt) hr
    rw [run_of_started h]
    simp only [hrest]
    rfl
  · intro pre site b post htr
    rw [run_of_started h] at htr
    obtain ⟨q, hq1, hq2⟩ := append_split_of_not_mem htr (hinit site b)
    obtain ⟨⟨x, xOld, tl, hs⟩, ⟨dt1, tl1, ha⟩⟩ :=
      timeLoopRun_finished_after_step env v fuel _ q post site b hq2
    rw [hq1]
    exact ⟨⟨x, xOld, tl, List.mem_append_right _ hs⟩, ⟨dt1, tl1, List.mem_append_right _ ha⟩⟩
  · intro pre post htr
    rw [run_of_started h] at htr ⊢
    obtain ⟨q, _, hq2⟩ := append_split_of_not_mem htr (hinit _ _)
    exact l1 q post hq2
  · intro hc
    rw [run_of_started h] at hc ⊢
    obtain ⟨pre, hpre⟩ := l2 hc
    exact ⟨initialWrites x0 ++ pre, by simp only [hpre, List.append_assoc]⟩
  · intro pre post htr
    rw [run_of_started h] at htr ⊢
    obtain ⟨q, _, hq2⟩ := append_split_of_not_mem htr (hinit _ _)
    exact l3 q post hq2
  · intro N hv hret hfin hlast
    have hsc : ∀ t : List (Event Sol), solveCalls (initialWrites x0 ++ t) = solveCalls t :=
      fun _ => rfl
    have hlc : ∀ t : List (Event Sol),
        loopConditions (initialWrites x0 ++ t) = loopConditions t := fun _ => rfl
    constructor
    · intro m
      obtain ⟨p1, p2, p3, p4⟩ := timeLoopRun_passes env v hv N
        (initialState env x0 tEnd maxDT dt) (fun k hk => hret k (Nat.lt_succ_of_lt hk)) hfin (m + 1)
      obtain ⟨q1, q2, q3, q4⟩ := timeLoopRun_last_pass env v hv m
        (passState env N (initialState env x0 tEnd maxDT dt)) (hret N (Nat.lt_succ_self N)) hlast
      have hstatus : (run env (N + (m + 1))).status = Status.completed := by
        rw [run_of_started h]
        exact p1.trans q1
      refine ⟨hstatus, by simp [main, hstatus, exitCode], ?_, ?_, ?_, ?_⟩
      · rw [run_of_started h]
        show some (timeLoopRun env v (N + (m + 1)) _).state.timeLoop = _
        rw [p2, q2]
        rfl
      · rw [run_of_started h]
        show some (timeLoopRun env v (N + (m + 1)) _).state.x = _
        rw [p2, q2]
      · rw [run_of_started h]
        show solveCalls (initialWrites x0 ++ (timeLoopRun env v (N + (m + 1)) _).trace) = _
        rw [hsc, p3, q3]
        exact (passCalls_succ env N _).symm
      · rw [run_of_started h]
        show loopConditions (initialWrites x0 ++ (timeLoopRun env v (N + (m + 1)) _).trace) = _
        rw [hlc, p4, q4]
    · intro n hn
      obtain ⟨p1, _, p3, p4⟩ := timeLoopRun_passes env v hv n
        (initialState env x0 tEnd maxDT dt)
        (fun k hk => hret k (Nat.lt_succ_of_lt (Nat.lt_of_lt_of_le hk hn)))
        (fun k hk => hfin k (Nat.lt_of_lt_of_le hk hn)) 0
      rw [Nat.add_zero] at p1 p3 p4
      refine ⟨?_, ?_, ?_⟩
      · rw [run_of_started h]
        exact p1
      · rw [run_of_started h]
        show solveCalls (initialWrites x0 ++ (timeLoopRun env v n _).trace) = _
        rw [hsc, p3]
        exact List.append_nil _
      · rw [run_of_started h]
        show loopConditions (initialWrites x0 ++ (timeLoopRun env v n _).trace) = _
        rw [hlc, p4]
        exact List.append_nil _

/-- C10, at two concrete configurations. With `TimeLoop.TEnd` below the
start time the loop still begins with a Newton solve and an
`advanceTimeStep()`, `finished()` is true after that first step, and the run
with room for 50 passes completes after exactly one Newton solve. With end
time 3 and step size 1, `finished()` is false after the first two steps and
true after the third, and the run completes after exactly three solves. -/
theorem loop_is_do_while_witness :
    (run (demoEnv 2 (-1) 1 5) (0 + 1)).trace.take 3 =
      initialWrites 0 ++ [Event.solveCall 0 0 (initialTimeLoop (demoEnv 2 (-1) 1 5) (-1) 1 5)] ∧
    (run (demoEnv 2 (-1) 1 5) (0 + 1)).trace.take 8 =
      initialWrites 0 ++
        stepEvents (demoEnv 2 (-1) 1 5) (initialState (demoEnv 2 (-1) 1 5) 0 (-1) 1 5) ∧
    (run (demoEnv 2 (-1) 1 5) (0 + (49 + 1))).status = Status.completed ∧
    main (demoEnv 2 (-1) 1 5) (0 + (49 + 1)) = some 0 ∧
    solveCalls (run (demoEnv 2 (-1) 1 5) (0 + (49 + 1))).trace =
      passCalls (demoEnv 2 (-1) 1 5) (0 + 1) (initialState (demoEnv 2 (-1) 1 5) 0 (-1) 1 5) ∧
    loopConditions (run (demoEnv 2 (-1) 1 5) (0 + (49 + 1))).trace =
      List.replicate 0 false ++ [true] ∧
    (run (demoEnv 2 3 1 1) (2 + (7 + 1))).status = Status.completed ∧
    loopConditions (run (demoEnv 2 3 1 1) (2 + (7 + 1))).trace =
      List.replicate 2 false ++ [true] ∧
    (run (demoEnv 2 3 1 1) 2).status = Status.running :=
  have h := loop_is_do_while (demoEnv 2 (-1) 1 5) 0 0 2 (-1) 1 5 ⟨rfl, rfl, rfl, rfl, rfl⟩
  have h7 := (h.2.2.2.2.2.2 0 (by decide) (fun _ _ => rfl)
    (fun k hk => absurd hk (Nat.not_lt_zero k)) (by decide!)).1 49
  have g := (loop_is_do_while (demoEnv 2 3 1 1) 0 0 2 3 1 1 ⟨rfl, rfl, rfl, rfl, rfl⟩).2.2.2.2.2.2
    2 (by decide) (fun _ _ => rfl)
    (by intro k hk; interval_cases k <;> decide!) (by decide!)
  ⟨h.1, h.2.1 rfl, h7.1, h7.2.1, h7.2.2.2.2.1, h7.2.2.2.2.2,
    (g.1 7).1, (g.1 7).2.2.2.2.2, (g.2 2 (Nat.le_refl 2)).1⟩

end El1p
